import Mathlib

/-
Verification development for the delivery-agent path-planning system
(grid model, time-expanded search engine: bfs / ucs / astar, and the
replanning agent).  The Python source is embedded shallowly:

* machine integers become `Int` (Python ints are unbounded, so no modular
  wrap is needed); times that the data model constrains to be non-negative
  (`SearchState` times) are embedded as `Nat` and coerced to `Int` at the
  grid-query boundary,
* fallible code (`raise ValueError`, `KeyError`, `IndexError`) becomes
  `Except String`,
* Python `dict`s become association lists whose lookup returns the most
  recent binding, Python sets become lists queried by membership,
* the `heapq` priority queue becomes a list from which the minimum entry
  under the lexicographic `(priority, counter)` key is removed; pushed
  counters are pairwise distinct, so this reproduces `heapq`'s tuple order,
* while-loops whose iteration count is bounded by the expansion cap become
  fuel recursion; the fuel is chosen so that it provably never runs out.
-/

namespace PathPlan

/-- A grid cell, `Position = Tuple[int, int]` in `grid.py`. -/
abbrev Position := Int × Int

/-- `dynamic.py`, `MovingObstacle`: an obstacle that moves along a
predefined path, cycling by default (a plain dataclass). -/
structure MovingObstacle where
  path : List Position
  cycle : Bool
deriving DecidableEq, Repr

/-- The dataclass-generated constructor of `MovingObstacle`. It performs no
validation whatsoever: any `path`, including the empty one, is accepted. -/
def mkMovingObstacle (path : List Position) (cycle : Bool) :
    Except String MovingObstacle :=
  .ok ⟨path, cycle⟩

/-- `MovingObstacle.position_at`: raises for an empty path or a negative
time; otherwise indexes the path cyclically (`t % len(path)`) or clamped
(`min(t, len(path) - 1)`). For `0 ≤ t`, Python's `t % len` and `min`
coincide with the `Nat` operations used on `t.toNat`. -/
def MovingObstacle.position_at (o : MovingObstacle) (t : Int) :
    Except String Position :=
  match o.path with
  | [] => .error "MovingObstacle requires a non-empty path"
  | p :: ps =>
    if t < 0 then .error "t must be non-negative"
    else if o.cycle then
      .ok ((p :: ps).get ⟨t.toNat % (p :: ps).length, Nat.mod_lt _ (Nat.succ_pos _)⟩)
    else
      .ok ((p :: ps).get ⟨min t.toNat ps.length, Nat.lt_succ_of_le (Nat.min_le_right _ _)⟩)

/-- `MovingObstacle.occupies`: the obstacle's position at `t` equals `pos`. -/
def MovingObstacle.occupies (o : MovingObstacle) (pos : Position) (t : Int) :
    Except String Bool :=
  match o.position_at t with
  | .error e => .error e
  | .ok p => .ok (decide (p = pos))

/-- `grid.py`, `Bounds`. -/
structure Bounds where
  width : Int
  height : Int
deriving DecidableEq, Repr

/-- `Bounds.in_bounds`: `0 <= x < width and 0 <= y < height`. -/
def Bounds.in_bounds (b : Bounds) (pos : Position) : Bool :=
  decide (0 ≤ pos.1) && decide (pos.1 < b.width) &&
  decide (0 ≤ pos.2) && decide (pos.2 < b.height)

/-- `grid.py`, `Grid`: bounds, dense terrain (`_terrain[y][x]`), the set of
statically blocked cells (embedded as a list queried by membership) and the
registered dynamic obstacles, in registration order. -/
structure Grid where
  bounds : Bounds
  terrain : List (List Int)
  static_blocked : List Position
  dynamic_obstacles : List MovingObstacle
deriving DecidableEq, Repr

/-- `Grid.__init__`: validates the dimensions and the default cost, then
builds `height` rows of `width` copies of `default_cost`. -/
def mkGrid (width height default_cost : Int) : Except String Grid :=
  if width ≤ 0 ∨ height ≤ 0 then .error "Grid dimensions must be positive"
  else if default_cost < 1 then .error "default_cost must be >= 1"
  else .ok { bounds := ⟨width, height⟩
           , terrain := List.replicate height.toNat (List.replicate width.toNat default_cost)
           , static_blocked := []
           , dynamic_obstacles := [] }

/-- `Grid.get_cost`: bounds check, then `self._terrain[y][x]` (a failed
list index is Python's `IndexError`; it cannot occur on a grid whose
terrain has the shape `__init__` establishes). -/
def Grid.get_cost (g : Grid) (pos : Position) : Except String Int :=
  if g.bounds.in_bounds pos = false then .error "Position out of bounds"
  else
    match g.terrain.get? pos.2.toNat with
    | none => .error "IndexError"
    | some row =>
      match row.get? pos.1.toNat with
      | none => .error "IndexError"
      | some c => .ok c

/-- `Grid.is_static_blocked`: membership in the static-obstacle set. -/
def Grid.is_static_blocked (g : Grid) (pos : Position) : Bool :=
  decide (pos ∈ g.static_blocked)

/-- The loop of `Grid.is_dynamic_blocked` over the registered obstacles:
the first occupancy query that raises propagates; otherwise true as soon as
one obstacle occupies the cell. -/
def anyOccupies : List MovingObstacle → Position → Int → Except String Bool
  | [], _, _ => .ok false
  | o :: os, pos, t =>
    match o.occupies pos t with
    | .error e => .error e
    | .ok true => .ok true
    | .ok false => anyOccupies os pos t

/-- `Grid.is_dynamic_blocked`. -/
def Grid.is_dynamic_blocked (g : Grid) (pos : Position) (t : Int) :
    Except String Bool :=
  anyOccupies g.dynamic_obstacles pos t

/-- `Grid.is_blocked`: `is_static_blocked(pos) or is_dynamic_blocked(pos, t)`;
Python's `or` short-circuits, so a statically blocked cell never queries the
dynamic obstacles. -/
def Grid.is_blocked (g : Grid) (pos : Position) (t : Int) : Except String Bool :=
  if g.is_static_blocked pos then .ok true else g.is_dynamic_blocked pos t

/-- The filtering loop of `Grid.neighbors`: keep the in-bounds candidates
that are not blocked at `t_next`, preserving candidate order. -/
def passableAcc (g : Grid) (t_next : Int) : List Position → Except String (List Position)
  | [] => .ok []
  | c :: rest =>
    if g.bounds.in_bounds c = false then passableAcc g t_next rest
    else
      match g.is_blocked c t_next with
      | .error e => .error e
      | .ok true => passableAcc g t_next rest
      | .ok false =>
        match passableAcc g t_next rest with
        | .error e => .error e
        | .ok l => .ok (c :: l)

/-- `Grid.neighbors`: the fixed candidate order `(x+1,y), (x-1,y), (x,y+1),
(x,y-1)`, filtered to in-bounds cells passable at `t_next`. -/
def Grid.neighbors (g : Grid) (pos : Position) (t_next : Int) :
    Except String (List Position) :=
  passableAcc g t_next
    [(pos.1 + 1, pos.2), (pos.1 - 1, pos.2), (pos.1, pos.2 + 1), (pos.1, pos.2 - 1)]

/-- Well-formedness of a grid as established by `Grid.__init__` plus the
data model's invariant on dynamic obstacles (every patrol path non-empty).
Under it no grid query invoked with a non-negative time can raise. -/
def GridWF (g : Grid) : Prop :=
  (∀ o ∈ g.dynamic_obstacles, o.path ≠ []) ∧
  g.terrain.length = g.bounds.height.toNat ∧
  (∀ row ∈ g.terrain, row.length = g.bounds.width.toNat)

instance (g : Grid) : Decidable (GridWF g) := by
  unfold GridWF; infer_instance

/-! ## Time-expanded search engine (`search.py`) -/

/-- `search.py`, `State`: a (position, time) pair. The data model fixes the
time component to be a non-negative integer, so it is a `Nat`; grid queries
receive it coerced to `Int`. -/
structure State where
  pos : Position
  t : Nat
deriving DecidableEq, Repr

/-- `search.py`, `manhattan`. -/
def manhattan (a b : Position) : Int :=
  |a.1 - b.1| + |a.2 - b.2|

/-- The `parent` dictionary: association list, most recent binding wins. -/
abbrev PMap := List (State × Option State)

/-- The `g_cost` dictionary of ucs / astar. -/
abbrev GMap := List (State × Int)

/-- Dictionary lookup (`parent[s]`, `g_cost.get(s)`): the most recent
binding for the key, if any. -/
def alookup {α : Type} : List (State × α) → State → Option α
  | [], _ => none
  | (k, v) :: m, s => if k = s then some v else alookup m s

/-- The body of `reconstruct_path`'s while-loop: append the current
position, then follow the parent link (a missing key is Python's
`KeyError`). The fuel never runs out on the parent maps the searches
build, whose links strictly decrease the time component. -/
def reconstructAux (parent : PMap) : Nat → Option State → List Position → Except String (List Position)
  | _, none, seq => .ok seq.reverse
  | 0, some _, _ => .error "reconstruct fuel exhausted"
  | fuel + 1, some cur, seq =>
    match alookup parent cur with
    | none => .error "KeyError"
    | some pnt => reconstructAux parent fuel pnt (seq ++ [cur.pos])

/-- `search.py`, `reconstruct_path`: follow parent links from `e` back to
the root, collecting positions, then reverse. -/
def reconstruct_path (parent : PMap) (e : State) : Except String (List Position) :=
  reconstructAux parent (e.t + 1) (some e) []

/-- The inline move-edge filter of ucs / astar
(`if grid.is_dynamic_blocked(npos, cur.t): continue`), as a list filter. -/
def filterNotDynNow (g : Grid) (t : Nat) : List Position → Except String (List Position)
  | [] => .ok []
  | p :: rest =>
    match g.is_dynamic_blocked p (t : Int) with
    | .error e => .error e
    | .ok true => filterNotDynNow g t rest
    | .ok false =>
      match filterNotDynNow g t rest with
      | .error e => .error e
      | .ok l => .ok (p :: l)

/-- The move edges bfs generates from `cur`: exactly
`grid.neighbors(cur.pos, next_t)` — bfs applies no current-time
dynamic-occupancy filter to its moves. -/
def bfsMoveEdges (g : Grid) (cur : State) : Except String (List Position) :=
  g.neighbors cur.pos ((cur.t + 1 : Nat) : Int)

/-- The move edges ucs generates from `cur`: the neighbors at `next_t`,
minus those dynamically occupied at the current time `cur.t`
(`search.py` lines 100–102, with the inline `continue` hoisted into a
filter). -/
def ucsMoveEdges (g : Grid) (cur : State) : Except String (List Position) :=
  match g.neighbors cur.pos ((cur.t + 1 : Nat) : Int) with
  | .error e => .error e
  | .ok l => filterNotDynNow g cur.t l

/-- The move edges astar generates from `cur` (`search.py` lines 153–155):
textually the same filter as ucs's. -/
def astarMoveEdges (g : Grid) (cur : State) : Except String (List Position) :=
  match g.neighbors cur.pos ((cur.t + 1 : Nat) : Int) with
  | .error e => .error e
  | .ok l => filterNotDynNow g cur.t l

/-- bfs's wait-edge legality check (`search.py` line 52):
the cell must not be blocked at `next_t`. -/
def bfsWaitAllowed (g : Grid) (cur : State) : Except String Bool :=
  match g.is_blocked cur.pos ((cur.t + 1 : Nat) : Int) with
  | .error e => .error e
  | .ok b => .ok (!b)

/-- ucs's wait-edge legality check (`search.py` line 88): not blocked at
`next_t` AND not dynamically occupied at the current time `cur.t`
(short-circuit: the second query runs only if the first is false). -/
def ucsWaitAllowed (g : Grid) (cur : State) : Except String Bool :=
  match g.is_blocked cur.pos ((cur.t + 1 : Nat) : Int) with
  | .error e => .error e
  | .ok true => .ok false
  | .ok false =>
    match g.is_dynamic_blocked cur.pos (cur.t : Int) with
    | .error e => .error e
    | .ok d => .ok (!d)

/-- astar's wait-edge legality check (`search.py` line 141): only that the
cell is not blocked at `next_t`. -/
def astarWaitAllowed (g : Grid) (cur : State) : Except String Bool :=
  match g.is_blocked cur.pos ((cur.t + 1 : Nat) : Int) with
  | .error e => .error e
  | .ok b => .ok (!b)

/-- The sub-loop of bfs over the generated move edges: insert each unseen
successor state into the parent map (parent `cur`) and append it to the
FIFO frontier. -/
def bfsAddMoves (cur : State) (next_t : Nat) :
    List Position → PMap → List State → PMap × List State
  | [], parent, frontier => (parent, frontier)
  | npos :: rest, parent, frontier =>
    if alookup parent ⟨npos, next_t⟩ = none then
      bfsAddMoves cur next_t rest ((⟨npos, next_t⟩, some cur) :: parent)
        (frontier ++ [⟨npos, next_t⟩])
    else
      bfsAddMoves cur next_t rest parent frontier

/-- The wait-edge processing of one bfs iteration (`search.py` 51–56):
when the wait is legal and the wait state is unseen, bind it to `cur` and
append it to the FIFO frontier. -/
def bfsWaitStep (cur : State) (wok : Bool) (parent : PMap) (rest : List State) :
    PMap × List State :=
  if wok then
    if alookup parent ⟨cur.pos, cur.t + 1⟩ = none then
      ((⟨cur.pos, cur.t + 1⟩, some cur) :: parent, rest ++ [⟨cur.pos, cur.t + 1⟩])
    else (parent, rest)
  else (parent, rest)

/-- The while-loop of `bfs`: pop the FIFO frontier; return the
reconstructed path when the goal position is popped; count the expansion
and give up past the cap; otherwise generate the wait edge and the move
edges and continue. -/
def bfsLoop (g : Grid) (goal : Position) (cap : Nat) :
    Nat → List State → PMap → Nat → Except String (Option (List Position))
  | 0, _, _, _ => .error "search fuel exhausted"
  | _ + 1, [], _, _ => .ok none
  | fuel + 1, cur :: rest, parent, expanded =>
    if cur.pos = goal then (reconstruct_path parent cur).map some
    else if expanded + 1 > cap then .ok none
    else
      match bfsWaitAllowed g cur with
      | .error e => .error e
      | .ok wok =>
        match bfsWaitStep cur wok parent rest with
        | (parent1, rest1) =>
          match bfsMoveEdges g cur with
          | .error e => .error e
          | .ok moves =>
            match bfsAddMoves cur (cur.t + 1) moves parent1 rest1 with
            | (parent2, rest2) => bfsLoop g goal cap fuel rest2 parent2 (expanded + 1)

/-- `search.py`, `bfs`: fail-fast if the start is blocked at `t0`, then run
the loop. The loop executes at most `cap + 1` iterations (each one counts
an expansion and aborts once the count exceeds the cap), so fuel `cap + 2`
never runs out. -/
def bfs (g : Grid) (start goal : Position) (t0 : Nat) (max_expansions : Nat) :
    Except String (Option (List Position)) :=
  match g.is_blocked start (t0 : Int) with
  | .error e => .error e
  | .ok true => .ok none
  | .ok false =>
    bfsLoop g goal max_expansions (max_expansions + 2)
      [⟨start, t0⟩] [(⟨start, t0⟩, none)] 0

/-- An entry of the `heapq` frontier of ucs / astar: the tuple
`(priority, counter, state)`. -/
structure HEntry where
  f : Int
  c : Nat
  s : State
deriving DecidableEq, Repr

/-- Lexicographic order on the `(priority, counter)` part of a heap tuple;
counters of pushed entries are pairwise distinct, so the `State` component
is never compared (as in Python, where comparison would stop at the
counter). -/
def entryLe (a b : HEntry) : Bool :=
  decide (a.f < b.f) || (decide (a.f = b.f) && decide (a.c ≤ b.c))

/-- `heapq.heappop`: remove the minimum entry, keeping the remaining
entries (their relative order is irrelevant: keys are pairwise distinct). -/
def popMinAux (best : HEntry) (acc : List HEntry) :
    List HEntry → HEntry × List HEntry
  | [] => (best, acc.reverse)
  | x :: xs =>
    if entryLe best x then popMinAux best (x :: acc) xs
    else popMinAux x (best :: acc) xs

/-- The shared relaxation step of ucs and astar (`search.py` lines 90–98 /
103–113 / 143–151 / 156–166, which are textually identical between the two
algorithms): skip unless strictly better than the best known cost, else
record cost and parent and push `(new_f, counter, next)`. -/
def relax (goal : Position) (cur : State) (cur_g : Int) (next : State)
    (step_cost : Int) (g_cost : GMap) (parent : PMap) (frontier : List HEntry)
    (counter : Nat) : GMap × PMap × List HEntry × Nat :=
  match alookup g_cost next with
  | none =>
    ((next, cur_g + step_cost) :: g_cost, (next, some cur) :: parent,
      ⟨cur_g + step_cost + manhattan next.pos goal, counter, next⟩ :: frontier,
      counter + 1)
  | some prev_g =>
    if cur_g + step_cost < prev_g then
      ((next, cur_g + step_cost) :: g_cost, (next, some cur) :: parent,
        ⟨cur_g + step_cost + manhattan next.pos goal, counter, next⟩ :: frontier,
        counter + 1)
    else (g_cost, parent, frontier, counter)

/-- The sub-loop of ucs / astar over the generated move edges: look up the
entering cost and relax each successor. -/
def movesFold (g : Grid) (goal : Position) (cur : State) (cur_g : Int) :
    List Position → GMap → PMap → List HEntry → Nat →
    Except String (GMap × PMap × List HEntry × Nat)
  | [], gc, pm, fr, cnt => .ok (gc, pm, fr, cnt)
  | npos :: rest, gc, pm, fr, cnt =>
    match g.get_cost npos with
    | .error e => .error e
    | .ok move_cost =>
      match relax goal cur cur_g ⟨npos, cur.t + 1⟩ move_cost gc pm fr cnt with
      | (gc', pm', fr', cnt') => movesFold g goal cur cur_g rest gc' pm' fr' cnt'

/-- The wait-edge relaxation of one ucs / astar iteration: when the wait
is legal, relax the wait successor with step cost 1. -/
def waitRelaxStep (goal : Position) (cur : State) (cur_g : Int) (wok : Bool)
    (g_cost : GMap) (parent : PMap) (fr : List HEntry) (counter : Nat) :
    GMap × PMap × List HEntry × Nat :=
  if wok then relax goal cur cur_g ⟨cur.pos, cur.t + 1⟩ 1 g_cost parent fr counter
  else (g_cost, parent, fr, counter)

/-- The while-loop of `ucs`: pop the minimum `(f, counter)` entry, reading
the accumulated value from the popped tuple; goal test; expansion cap;
then the wait edge (with ucs's extra current-time occupancy condition) and
the filtered move edges. -/
def ucsLoop (g : Grid) (goal : Position) (cap : Nat) :
    Nat → List HEntry → GMap → PMap → Nat → Nat →
    Except String (Option (List Position))
  | 0, _, _, _, _, _ => .error "search fuel exhausted"
  | _ + 1, [], _, _, _, _ => .ok none
  | fuel + 1, e :: rest, g_cost, parent, expanded, counter =>
    match popMinAux e [] rest with
    | (m, fr) =>
      if m.s.pos = goal then (reconstruct_path parent m.s).map some
      else if expanded + 1 > cap then .ok none
      else
        match ucsWaitAllowed g m.s with
        | .error e => .error e
        | .ok wok =>
          match waitRelaxStep goal m.s m.f wok g_cost parent fr counter with
          | (gc1, pm1, fr1, cnt1) =>
            match ucsMoveEdges g m.s with
            | .error e => .error e
            | .ok moves =>
              match movesFold g goal m.s m.f moves gc1 pm1 fr1 cnt1 with
              | .error e => .error e
              | .ok (gc2, pm2, fr2, cnt2) =>
                ucsLoop g goal cap fuel fr2 gc2 pm2 (expanded + 1) cnt2

/-- `search.py`, `ucs`: fail-fast on a blocked start, then run the loop
seeded with `(0, 0, start_state)`, cost map `{start: 0}` and counter 1. -/
def ucs (g : Grid) (start goal : Position) (t0 : Nat) (max_expansions : Nat) :
    Except String (Option (List Position)) :=
  match g.is_blocked start (t0 : Int) with
  | .error e => .error e
  | .ok true => .ok none
  | .ok false =>
    ucsLoop g goal max_expansions (max_expansions + 2)
      [⟨0, 0, ⟨start, t0⟩⟩] [(⟨start, t0⟩, 0)] [(⟨start, t0⟩, none)] 0 1

/-- The while-loop of `astar`: pop the minimum entry, read the accumulated
cost from `g_cost` (`cur_g = g_cost[cur]`, a `KeyError` if absent), goal
test, expansion cap, astar's wait edge (no current-time condition) and the
filtered move edges. -/
def astarLoop (g : Grid) (goal : Position) (cap : Nat) :
    Nat → List HEntry → GMap → PMap → Nat → Nat →
    Except String (Option (List Position))
  | 0, _, _, _, _, _ => .error "search fuel exhausted"
  | _ + 1, [], _, _, _, _ => .ok none
  | fuel + 1, e :: rest, g_cost, parent, expanded, counter =>
    match popMinAux e [] rest with
    | (m, fr) =>
      match alookup g_cost m.s with
      | none => .error "KeyError"
      | some cur_g =>
        if m.s.pos = goal then (reconstruct_path parent m.s).map some
        else if expanded + 1 > cap then .ok none
        else
          match astarWaitAllowed g m.s with
          | .error e => .error e
          | .ok wok =>
            match waitRelaxStep goal m.s cur_g wok g_cost parent fr counter with
            | (gc1, pm1, fr1, cnt1) =>
              match astarMoveEdges g m.s with
              | .error e => .error e
              | .ok moves =>
                match movesFold g goal m.s cur_g moves gc1 pm1 fr1 cnt1 with
                | .error e => .error e
                | .ok (gc2, pm2, fr2, cnt2) =>
                  astarLoop g goal cap fuel fr2 gc2 pm2 (expanded + 1) cnt2

/-- `search.py`, `astar`: fail-fast on a blocked start, then run the loop
seeded with `(manhattan(start, goal), 0, start_state)`. -/
def astar (g : Grid) (start goal : Position) (t0 : Nat) (max_expansions : Nat) :
    Except String (Option (List Position)) :=
  match g.is_blocked start (t0 : Int) with
  | .error e => .error e
  | .ok true => .ok none
  | .ok false =>
    astarLoop g goal max_expansions (max_expansions + 2)
      [⟨manhattan start goal, 0, ⟨start, t0⟩⟩] [(⟨start, t0⟩, 0)]
      [(⟨start, t0⟩, none)] 0 1

instance {ε α : Type} [DecidableEq ε] [DecidableEq α] : DecidableEq (Except ε α) := by
  intro a b
  cases a <;> cases b <;> first
    | (apply isFalse; intro h; exact Except.noConfusion h)
    | (rename_i x y
       exact if h : x = y then isTrue (by rw [h])
             else isFalse (by intro hh; cases hh; exact h rfl))

/-! ## Replanning agent (`agent.py`) -/

/-- Modelled from the spec: the process-wide pseudo-random source (Python's
global `random` module, outside `src/`), used only by the local hill-climb
fallback. The spec requires only that it be deterministic once seeded
(`random.seed`) and that shuffling produce a reordering of the candidate
list; it is modelled as a `Nat` state with a linear-congruential step and a
rotation shuffle. -/
abbrev Rng := Nat

/-- Modelled from the spec: `random.seed(seed)` — resets the global source
to a state determined by the seed alone. -/
def rngSeed (seed : Int) : Rng := seed.natAbs

/-- Modelled from the spec: advancing the global source. -/
def rngNext (r : Rng) : Rng := (r * 1103515245 + 12345) % 4294967296

/-- Modelled from the spec: `random.shuffle` — a deterministic permutation
of the list driven by the current source state (here a rotation), advancing
the state. -/
def rngShuffle {α : Type} (r : Rng) (l : List α) : List α × Rng :=
  (l.drop (r % (l.length + 1)) ++ l.take (r % (l.length + 1)), rngNext r)

/-- `agent.py`, `AgentConfig`. The attempt count and the candidate cap are
embedded as `Nat` (the spec constrains both to be ≥ 1). -/
structure AgentConfig where
  algo : String
  hill_climb_attempts : Nat
  hill_climb_neighbors : Nat
  random_seed : Option Int
deriving DecidableEq, Repr

/-- The defaults of `AgentConfig`. -/
def defaultConfig : AgentConfig := ⟨"astar", 5, 12, none⟩

/-- The `ALGORITHMS` table: the search function for a known algorithm name
(each applied with the default `max_expansions = 200000`, as the agent's
4-argument call does). -/
def algoFn (name : String) :
    Option (Grid → Position → Position → Nat → Except String (Option (List Position))) :=
  if name = "bfs" then some (fun g s go t => bfs g s go t 200000)
  else if name = "ucs" then some (fun g s go t => ucs g s go t 200000)
  else if name = "astar" then some (fun g s go t => astar g s go t 200000)
  else none

/-- `agent.py`, `DeliveryAgent`: position, time, goal, remaining plan
(`_plan`) and the metrics. -/
structure Agent where
  grid : Grid
  start : Position
  goal : Position
  t : Nat
  pos : Position
  config : AgentConfig
  _plan : List Position
  total_cost : Int
  steps_taken : Nat
  replan_count : Nat
  dynamic_conflicts : Nat
  path_trace : List (Nat × Position)
  last_action : String
  last_step_cost : Int
  last_reason : String
deriving DecidableEq, Repr

/-- `DeliveryAgent.__init__`: seed the global random source if a seed is
configured (before the algorithm check, as in the source), reject an
unknown algorithm name, and initialise state and metrics. -/
def agentInit (grid : Grid) (start goal : Position) (config : Option AgentConfig)
    (rng : Rng) : Except String (Agent × Rng) :=
  let cfg := config.getD defaultConfig
  let rng1 := match cfg.random_seed with
    | some s => rngSeed s
    | none => rng
  if (algoFn cfg.algo).isNone then .error ("Unknown algorithm: " ++ cfg.algo)
  else .ok
    ({ grid := grid, start := start, goal := goal, t := 0, pos := start
     , config := cfg, _plan := []
     , total_cost := 0, steps_taken := 0, replan_count := 0
     , dynamic_conflicts := 0, path_trace := [(0, start)]
     , last_action := "init", last_step_cost := 0, last_reason := "" }, rng1)

/-- `DeliveryAgent.at_goal`. -/
def Agent.at_goal (a : Agent) : Bool := decide (a.pos = a.goal)

/-- `DeliveryAgent.planned_path`: a read-only snapshot of the plan. -/
def Agent.planned_path (a : Agent) : List Position := a._plan

/-- `DeliveryAgent.plan`: run the configured search from the current
(position, time) to the goal; on a path, store it with the leading current
position dropped (`path[1:]`) and succeed; on `None` or an empty path,
clear the plan and fail. -/
def Agent.plan (a : Agent) : Except String (Bool × Agent) :=
  match algoFn a.config.algo with
  | none => .error ("Unknown algorithm: " ++ a.config.algo)
  | some f =>
    match f a.grid a.pos a.goal a.t with
    | .error e => .error e
    | .ok none => .ok (false, { a with _plan := [] })
    | .ok (some []) => .ok (false, { a with _plan := [] })
    | .ok (some (_ :: rest)) => .ok (true, { a with _plan := rest })

/-- The conflict test of `DeliveryAgent.step` (lines 86 and 103):
`grid.is_blocked(next_pos, t + 1) or grid.is_dynamic_blocked(next_pos, t)`,
with Python's short-circuit `or`. -/
def conflictCheck (g : Grid) (next_pos : Position) (t : Nat) : Except String Bool :=
  match g.is_blocked next_pos ((t + 1 : Nat) : Int) with
  | .error e => .error e
  | .ok true => .ok true
  | .ok false => g.is_dynamic_blocked next_pos (t : Int)

/-- The counter bump `step()` performs on detecting a conflict (lines
88–89): increment the dynamic-conflict and the replan counters. -/
def conflictBump (a : Agent) : Agent :=
  { a with dynamic_conflicts := a.dynamic_conflicts + 1
         , replan_count := a.replan_count + 1 }

/-- The scoring loop of `_local_hill_climb_move` (lines 152–160): entering
cost (1 for a wait) plus Manhattan distance to the goal; strict improvement
only, so the first minimum encountered wins (`best_score` starts at
`float("inf")`, embedded as `none`). -/
def bestOf (g : Grid) (apos goal : Position) :
    List Position → Option (Position × Int) → Except String (Option (Position × Int))
  | [], best => .ok best
  | cand :: rest, best =>
    match (if cand = apos then .ok 1 else g.get_cost cand : Except String Int) with
    | .error e => .error e
    | .ok move_cost =>
      bestOf g apos goal rest
        (match best with
         | none => some (cand, move_cost + manhattan cand goal)
         | some (bp, bs) =>
           if move_cost + manhattan cand goal < bs then
             some (cand, move_cost + manhattan cand goal)
           else some (bp, bs))

/-- One-step execution of a chosen hill-climb candidate (lines 163–175):
charge the entering cost (1 for a wait), advance position and time, update
metrics and trace, and clear the plan. The source compares `best_pos` with
`self.pos` only after `self.pos = best_pos`, so `last_action` is always
`"wait"` here. -/
def hillExec (a : Agent) (best_pos : Position) : Except String Agent :=
  match (if best_pos = a.pos then .ok 1 else a.grid.get_cost best_pos : Except String Int) with
  | .error e => .error e
  | .ok move_cost =>
    .ok { a with
      pos := best_pos
      t := a.t + 1
      total_cost := a.total_cost + move_cost
      steps_taken := a.steps_taken + 1
      path_trace := a.path_trace ++ [(a.t + 1, best_pos)]
      last_step_cost := move_cost
      last_action := "wait"
      last_reason := "hill"
      _plan := [] }

/-- The attempt loop of `_local_hill_climb_move` (lines 137–176): build the
candidate set (waiting, if legal now and at `t+1`; plus the neighbors at
`t+1` not dynamically occupied now), retry on an empty set, otherwise
shuffle, score at most `hill_climb_neighbors` candidates and execute the
best. -/
def hillAttempts (a : Agent) : Nat → Rng → Except String (Bool × Agent × Rng)
  | 0, rng => .ok (false, a, rng)
  | n + 1, rng =>
    match a.grid.is_blocked a.pos ((a.t + 1 : Nat) : Int) with
    | .error e => .error e
    | .ok wb =>
      match (if wb then .ok ([] : List Position)
             else match a.grid.is_dynamic_blocked a.pos (a.t : Int) with
                  | .error e => .error e
                  | .ok true => .ok []
                  | .ok false => .ok [a.pos] : Except String (List Position)) with
      | .error e => .error e
      | .ok waitC =>
        match a.grid.neighbors a.pos ((a.t + 1 : Nat) : Int) with
        | .error e => .error e
        | .ok neigh =>
          match filterNotDynNow a.grid a.t neigh with
          | .error e => .error e
          | .ok moves =>
            if (waitC ++ moves).isEmpty then hillAttempts a n rng
            else
              match rngShuffle rng (waitC ++ moves) with
              | (shuffled, rng') =>
                match bestOf a.grid a.pos a.goal (shuffled.take a.config.hill_climb_neighbors) none with
                | .error e => .error e
                | .ok none => hillAttempts a n rng'
                | .ok (some bp) =>
                  match hillExec a bp.1 with
                  | .error e => .error e
                  | .ok a' => .ok (true, a', rng')

/-- `DeliveryAgent._local_hill_climb_move`: up to `max(1, attempts)`
independent attempts. -/
def Agent.local_hill_climb_move (a : Agent) (rng : Rng) :
    Except String (Bool × Agent × Rng) :=
  hillAttempts a (max 1 a.config.hill_climb_attempts) rng

/-- The plan-front drop of `step()` (lines 123–124): the consumed step is
popped when it equals the (already-updated) position. -/
def execDrop (a1 : Agent) : Agent :=
  match a1._plan with
  | [] => a1
  | q :: rest => if q = a1.pos then { a1 with _plan := rest } else a1

/-- Step execution (lines 112–125): charge the entering cost (1 for a
wait), advance position and time, update metrics and trace, and drop the
consumed step via `execDrop`. As in `hillExec`, the source compares
`next_pos` with the already-updated `self.pos`, so `last_action` is always
`"wait"`. -/
def execStep (a : Agent) (next_pos : Position) (replan_triggered : Bool) :
    Except String Agent :=
  match (if next_pos = a.pos then .ok 1 else a.grid.get_cost next_pos : Except String Int) with
  | .error e => .error e
  | .ok move_cost =>
    .ok (execDrop { a with
      pos := next_pos
      t := a.t + 1
      total_cost := a.total_cost + move_cost
      steps_taken := a.steps_taken + 1
      path_trace := a.path_trace ++ [(a.t + 1, next_pos)]
      last_step_cost := move_cost
      last_action := "wait"
      last_reason := if replan_triggered then "replan" else "plan" })

/-- `DeliveryAgent.step`: success at the goal; otherwise ensure a plan
(stuck with `"no_initial_plan"` if none can be found); on a conflict of the
peeked step, bump the dynamic-conflict and replan counters, replan, re-peek
(falling back to the current position when the new plan is empty), and if
still conflicted or planless, try the local hill-climb; stuck only when
that also fails. -/
def Agent.step (a : Agent) (rng : Rng) : Except String (Bool × Agent × Rng) :=
  if a.at_goal then .ok (true, a, rng)
  else
    match (if a._plan.isEmpty then a.plan else .ok (true, a) : Except String (Bool × Agent)) with
    | .error e => .error e
    | .ok (false, a0) =>
      .ok (false, { a0 with last_action := "stuck", last_reason := "no_initial_plan" }, rng)
    | .ok (true, a0) =>
      match a0._plan with
      | [] => .error "IndexError"
      | next_pos :: _ =>
        match conflictCheck a0.grid next_pos a0.t with
        | .error e => .error e
        | .ok false =>
          match execStep a0 next_pos false with
          | .error e => .error e
          | .ok a' => .ok (true, a', rng)
        | .ok true =>
          match Agent.plan { a0 with
              dynamic_conflicts := a0.dynamic_conflicts + 1
              replan_count := a0.replan_count + 1 } with
          | .error e => .error e
          | .ok (false, a2) =>
            match a2.local_hill_climb_move rng with
            | .error e => .error e
            | .ok (false, a3, rng') =>
              .ok (false, { a3 with last_action := "stuck", last_reason := "conflict_no_plan" }, rng')
            | .ok (true, a3, rng') =>
              .ok (true, { a3 with last_action := "hill", last_reason := "conflict_fallback_hill" }, rng')
          | .ok (true, a2) =>
            match conflictCheck a2.grid (a2._plan.headD a2.pos) a2.t with
            | .error e => .error e
            | .ok true =>
              match a2.local_hill_climb_move rng with
              | .error e => .error e
              | .ok (false, a3, rng') =>
                .ok (false, { a3 with last_action := "stuck", last_reason := "conflict_after_replan" }, rng')
              | .ok (true, a3, rng') =>
                .ok (true, { a3 with last_action := "hill", last_reason := "conflict_after_replan_hill" }, rng')
            | .ok false =>
              match execStep a2 (a2._plan.headD a2.pos) true with
              | .error e => .error e
              | .ok a' => .ok (true, a', rng)

/-- A call of the agent's command surface, for scenario traces. -/
inductive AgentCall
  | planC
  | stepC
deriving DecidableEq, Repr

/-- Execute a sequence of `plan()` / `step()` calls, collecting the boolean
results. -/
def runCalls : Agent → Rng → List AgentCall → Except String (List Bool × Agent × Rng)
  | a, rng, [] => .ok ([], a, rng)
  | a, rng, .planC :: cs =>
    match a.plan with
    | .error e => .error e
    | .ok (b, a') =>
      match runCalls a' rng cs with
      | .error e => .error e
      | .ok (bs, a2, r2) => .ok (b :: bs, a2, r2)
  | a, rng, .stepC :: cs =>
    match a.step rng with
    | .error e => .error e
    | .ok (b, a', r') =>
      match runCalls a' r' cs with
      | .error e => .error e
      | .ok (bs, a2, r2) => .ok (b :: bs, a2, r2)

/-- A full scenario: construct the agent (with the ambient global random
state `rng0`) and run a call sequence. -/
def runScenario (rng0 : Rng) (grid : Grid) (start goal : Position)
    (config : Option AgentConfig) (calls : List AgentCall) :
    Except String (List Bool × Agent × Rng) :=
  match agentInit grid start goal config rng0 with
  | .error e => .error e
  | .ok (a, r) => runCalls a r calls

/-- The (time, position) trace of a finished run. -/
def traceOf (x : List Bool × Agent × Rng) : List (Nat × Position) :=
  x.2.1.path_trace

/-- The metrics of a finished run: total cost, steps taken, replan count,
dynamic conflicts. -/
def metricsOf (x : List Bool × Agent × Rng) : Int × Nat × Nat × Nat :=
  (x.2.1.total_cost, x.2.1.steps_taken, x.2.1.replan_count, x.2.1.dynamic_conflicts)

/-! ## A reference-cell model for `get_static_obstacles` (`grid.py` 67–68)

Python's `Grid` holds its static-obstacle set as a heap object;
`get_static_obstacles` returns `set(self._static_blocked)`, a fresh copy.
To state the freshness claim, set objects live in an explicit store and the
grid holds a reference into it. -/

/-- A store of set objects (each a list queried by membership); a
reference is an index. -/
structure Store where
  cells : List (List Position)
deriving DecidableEq, Repr

/-- Allocate a new set object, returning its reference. -/
def Store.alloc (st : Store) (v : List Position) : Store × Nat :=
  (⟨st.cells ++ [v]⟩, st.cells.length)

/-- Dereference. -/
def Store.read (st : Store) (r : Nat) : List Position :=
  st.cells.getD r []

/-- Overwrite the object behind a reference. -/
def Store.write (st : Store) (r : Nat) (v : List Position) : Store :=
  ⟨st.cells.set r v⟩

/-- The grid's handle to its `_static_blocked` set object. -/
structure GridRef where
  sref : Nat
deriving DecidableEq, Repr

/-- `Grid.get_static_obstacles`: `return set(self._static_blocked)` — a
fresh set object with the same members. -/
def get_static_obstacles (st : Store) (g : GridRef) : Store × Nat :=
  st.alloc (st.read g.sref)

/-- `Grid.is_static_blocked` in the reference model. -/
def is_static_blockedRef (st : Store) (g : GridRef) (pos : Position) : Bool :=
  decide (pos ∈ st.read g.sref)

/-- `set.add(pos)` on a set object. -/
def setAdd (st : Store) (r : Nat) (p : Position) : Store :=
  st.write r (p :: st.read r)

/-- `set.discard(pos)` on a set object. -/
def setDiscard (st : Store) (r : Nat) (p : Position) : Store :=
  st.write r ((st.read r).filter (fun q => q ≠ p))

/-! ## Path validity predicates and search-loop invariants -/

/-- One step of a returned path: either a wait (identical positions) or a
4-adjacent move (the coordinates differ by exactly 1 in exactly one
component, i.e. the Manhattan distance is 1). -/
def stepRel (a b : Position) : Prop :=
  a = b ∨ (a.1 - b.1).natAbs + (a.2 - b.2).natAbs = 1

instance (a b : Position) : Decidable (stepRel a b) := by
  unfold stepRel; infer_instance

/-- Validity of a returned path, as claimed: it starts at the search's
start position, contains no statically blocked cell at any index, and
consecutive positions are identical or 4-adjacent. -/
def pathOK (g : Grid) (start : Position) (p : List Position) : Prop :=
  p.head? = some start ∧
  (∀ x ∈ p, g.is_static_blocked x = false) ∧
  List.Chain' stepRel p

instance (g : Grid) (start : Position) (p : List Position) :
    Decidable (pathOK g start p) := by
  unfold pathOK; infer_instance

/-- The invariant of the `parent` maps all three search loops build:
the start state is the unique root (bound to `none`), every other binding
records a legal edge from a bound parent one time step earlier, every
bound state's position is statically free and (except possibly the start)
in bounds, and no bound state predates `t0`. -/
structure PInv (g : Grid) (start : Position) (t0 : Nat) (parent : PMap) : Prop where
  root_mem : alookup parent ⟨start, t0⟩ = some none
  start_unblocked : g.is_static_blocked start = false
  root_uniq : ∀ s, alookup parent s = some none → s = ⟨start, t0⟩
  stepOK : ∀ s p, alookup parent s = some (some p) →
    s.t = p.t + 1 ∧ stepRel p.pos s.pos ∧ g.is_static_blocked s.pos = false ∧
    (alookup parent p).isSome ∧
    (s.pos = start ∨ g.bounds.in_bounds s.pos = true)
  tmin : ∀ s v, alookup parent s = some v → t0 ≤ s.t

/-- All states in bfs's FIFO frontier are bound in the parent map. -/
def FrontierInv (parent : PMap) (frontier : List State) : Prop :=
  ∀ s ∈ frontier, (alookup parent s).isSome

/-- All states in the ucs / astar heap frontier are bound both in the
parent map and in the cost map. -/
def HInv (parent : PMap) (g_cost : GMap) (frontier : List HEntry) : Prop :=
  ∀ e ∈ frontier, (alookup parent e.s).isSome ∧ (alookup g_cost e.s).isSome

/-! ## Concrete scenario objects used by counterexamples and witnesses -/

/-- A free 2×1 grid with uniform cost 1 and no obstacles. -/
def gFree : Grid := ⟨⟨2, 1⟩, [[1, 1]], [], []⟩

/-- An obstacle patrolling `(1,0), (0,0)` cyclically: at even times it
occupies `(1,0)`, at odd times `(0,0)`. -/
def obsSwap : MovingObstacle := ⟨[(1, 0), (0, 0)], true⟩

/-- A 2×1 grid with `obsSwap`: moving from `(0,0)` into `(1,0)` during the
tick from `t = 0` to `t = 1` swaps cells with the obstacle. -/
def gSwap : Grid := ⟨⟨2, 1⟩, [[1, 1]], [], [obsSwap]⟩

/-- An obstacle patrolling `(0,0), (1,0)` cyclically: at `t = 0` it
occupies `(0,0)`. -/
def obsWait : MovingObstacle := ⟨[(0, 0), (1, 0)], true⟩

/-- A 2×1 grid with `obsWait`: at `t = 0` the cell `(0,0)` is dynamically
occupied but free again at `t = 1`. -/
def gWait : Grid := ⟨⟨2, 1⟩, [[1, 1]], [], [obsWait]⟩

/-- An agent configuration with a fixed random seed. -/
def cfgSeeded : AgentConfig := ⟨"astar", 5, 12, some 7⟩

/-- A freshly constructed agent on the free grid, from `(0,0)` to `(1,0)`. -/
def aStart : Agent :=
  { grid := gFree, start := (0, 0), goal := (1, 0), t := 0, pos := (0, 0)
  , config := cfgSeeded, _plan := []
  , total_cost := 0, steps_taken := 0, replan_count := 0
  , dynamic_conflicts := 0, path_trace := [(0, (0, 0))]
  , last_action := "init", last_step_cost := 0, last_reason := "" }

/-- `aStart` after one successful `plan()`: the remaining plan is `[(1,0)]`. -/
def aPlanned : Agent := { aStart with _plan := [(1, 0)] }

/-- An agent on `gSwap` whose planned next step `(1,0)` is dynamically
occupied at the current time 0: the conflict branch of `step()` fires. -/
def aConflict : Agent :=
  { grid := gSwap, start := (0, 0), goal := (1, 0), t := 0, pos := (0, 0)
  , config := cfgSeeded, _plan := [(1, 0)]
  , total_cost := 0, steps_taken := 0, replan_count := 0
  , dynamic_conflicts := 0, path_trace := [(0, (0, 0))]
  , last_action := "init", last_step_cost := 0, last_reason := "" }

/-! ## Helper lemmas -/

theorem occupies_neg (o : MovingObstacle) (p : Position) (t : Int)
    (hp : o.path ≠ []) (ht : t < 0) :
    o.occupies p t = .error "t must be non-negative" := by
  unfold MovingObstacle.occupies MovingObstacle.position_at
  match h : o.path with
  | [] => exact absurd h hp
  | q :: qs => simp [ht]

theorem occupies_nonneg_ok (o : MovingObstacle) (p : Position) (t : Int)
    (hp : o.path ≠ []) (ht : 0 ≤ t) :
    ∃ b, o.occupies p t = .ok b := by
  unfold MovingObstacle.occupies MovingObstacle.position_at
  match h : o.path with
  | [] => exact absurd h hp
  | q :: qs =>
    have ht' : ¬ t < 0 := not_lt.mpr ht
    cases hc : o.cycle <;> simp [ht']

theorem anyOccupies_nonneg (os : List MovingObstacle) (p : Position) (t : Int)
    (ht : 0 ≤ t) (hw : ∀ o ∈ os, o.path ≠ []) :
    ∃ b, anyOccupies os p t = .ok b ∧
      (b = true ↔ ∃ o ∈ os, o.occupies p t = .ok true) := by
  induction os with
  | nil => exact ⟨false, rfl, by simp⟩
  | cons o os ih =>
    obtain ⟨b0, hb0⟩ := occupies_nonneg_ok o p t (hw o (by simp)) ht
    obtain ⟨b, hb, hiff⟩ := ih (fun o' ho' => hw o' (by simp [ho']))
    cases b0 with
    | true =>
      refine ⟨true, ?_, ?_⟩
      · unfold anyOccupies; rw [hb0]
      · simp only [true_iff]
        exact ⟨o, by simp, hb0⟩
    | false =>
      refine ⟨b, ?_, ?_⟩
      · unfold anyOccupies; rw [hb0]; exact hb
      · rw [hiff]
        constructor
        · rintro ⟨o', ho', hocc⟩; exact ⟨o', by simp [ho'], hocc⟩
        · rintro ⟨o', ho', hocc⟩
          rcases List.mem_cons.mp ho' with h | h
          · subst h; rw [hb0] at hocc; cases hocc
          · exact ⟨o', h, hocc⟩

theorem filterNotDynNow_sound (g : Grid) (t : Nat) (l r : List Position)
    (h : filterNotDynNow g t l = .ok r) :
    ∀ p ∈ r, p ∈ l ∧ g.is_dynamic_blocked p (t : Int) = .ok false := by
  induction l generalizing r with
  | nil =>
    unfold filterNotDynNow at h
    cases h
    intro p hp; cases hp
  | cons q rest ih =>
    unfold filterNotDynNow at h
    cases hd : g.is_dynamic_blocked q (t : Int) with
    | error e => rw [hd] at h; cases h
    | ok b =>
      cases b with
      | true =>
        rw [hd] at h
        intro p hp
        obtain ⟨h1, h2⟩ := ih r h p hp
        exact ⟨by simp [h1], h2⟩
      | false =>
        rw [hd] at h
        cases hrec : filterNotDynNow g t rest with
        | error e => rw [hrec] at h; cases h
        | ok l' =>
          rw [hrec] at h
          cases h
          intro p hp
          rcases List.mem_cons.mp hp with h | h
          · subst h; exact ⟨by simp, hd⟩
          · obtain ⟨h1, h2⟩ := ih l' hrec p h
            exact ⟨by simp [h1], h2⟩

theorem stepRel_refl (a : Position) : stepRel a a := Or.inl rfl

theorem stepRel_symm {a b : Position} (h : stepRel a b) : stepRel b a := by
  unfold stepRel at h ⊢
  rcases h with h | h
  · exact Or.inl h.symm
  · right; omega

theorem alookup_cons {α : Type} (k : State) (v : α) (m : List (State × α)) (s : State) :
    alookup ((k, v) :: m) s = if k = s then some v else alookup m s := rfl

theorem alookup_isSome_cons {α : Type} (k : State) (v : α) (m : List (State × α))
    (s : State) (h : (alookup m s).isSome) :
    (alookup ((k, v) :: m) s).isSome := by
  rw [alookup_cons]
  split
  · rfl
  · exact h

theorem PInv.pos_inb {g : Grid} {start : Position} {t0 : Nat} {parent : PMap}
    (hinv : PInv g start t0 parent) (s : State)
    (hs : (alookup parent s).isSome) :
    s.pos = start ∨ g.bounds.in_bounds s.pos = true := by
  cases hv : alookup parent s with
  | none => rw [hv] at hs; cases hs
  | some v =>
    cases v with
    | none =>
      have := hinv.root_uniq s hv
      subst this
      exact Or.inl rfl
    | some p => exact (hinv.stepOK s p hv).2.2.2.2

theorem PInv.pos_unblocked {g : Grid} {start : Position} {t0 : Nat} {parent : PMap}
    (hinv : PInv g start t0 parent) (s : State)
    (hs : (alookup parent s).isSome) :
    g.is_static_blocked s.pos = false := by
  cases hv : alookup parent s with
  | none => rw [hv] at hs; cases hs
  | some v =>
    cases v with
    | none =>
      have := hinv.root_uniq s hv
      subst this
      exact hinv.start_unblocked
    | some p => exact (hinv.stepOK s p hv).2.2.1

theorem PInv.insert_child {g : Grid} {start : Position} {t0 : Nat} {parent : PMap}
    (hinv : PInv g start t0 parent) (cur : State) (npos : Position)
    (hcur : (alookup parent cur).isSome)
    (hst : g.is_static_blocked npos = false)
    (hrel : stepRel cur.pos npos)
    (hin : npos = start ∨ g.bounds.in_bounds npos = true) :
    PInv g start t0 ((⟨npos, cur.t + 1⟩, some cur) :: parent) := by
  have htcur : t0 ≤ cur.t := by
    cases hv : alookup parent cur with
    | none => rw [hv] at hcur; cases hcur
    | some v => exact hinv.tmin cur v hv
  have hne : (⟨npos, cur.t + 1⟩ : State) ≠ ⟨start, t0⟩ := by
    intro hcon
    have : cur.t + 1 = t0 := congrArg State.t hcon
    omega
  constructor
  · rw [alookup_cons, if_neg hne]
    exact hinv.root_mem
  · exact hinv.start_unblocked
  · intro s hs
    rw [alookup_cons] at hs
    split at hs
    · cases hs
    · exact hinv.root_uniq s hs
  · intro s p hs
    rw [alookup_cons] at hs
    split at hs
    case isTrue heq =>
      subst heq
      injection hs with hs
      injection hs with hs
      subst hs
      exact ⟨rfl, hrel, hst, alookup_isSome_cons _ _ _ _ hcur, hin⟩
    case isFalse =>
      obtain ⟨h1, h2, h3, h4, h5⟩ := hinv.stepOK s p hs
      exact ⟨h1, h2, h3, alookup_isSome_cons _ _ _ _ h4, h5⟩
  · intro s v hs
    rw [alookup_cons] at hs
    split at hs
    case isTrue heq =>
      rw [← heq]
      show t0 ≤ cur.t + 1
      omega
    case isFalse => exact hinv.tmin s v hs

theorem PInv.initial (g : Grid) (start : Position) (t0 : Nat)
    (hst : g.is_static_blocked start = false) :
    PInv g start t0 [(⟨start, t0⟩, none)] := by
  constructor
  · rw [alookup_cons, if_pos rfl]
  · exact hst
  · intro s hs
    rw [alookup_cons] at hs
    split at hs
    case isTrue heq => exact heq.symm
    case isFalse => cases hs
  · intro s p hs
    rw [alookup_cons] at hs
    split at hs
    · cases hs
    · cases hs
  · intro s v hs
    rw [alookup_cons] at hs
    split at hs
    case isTrue heq => rw [← heq]
    case isFalse => cases hs

theorem reconstructAux_none (parent : PMap) (fuel : Nat) (seq : List Position) :
    reconstructAux parent fuel none seq = .ok seq.reverse := by
  cases fuel <;> rfl

theorem reconstructAux_spec {g : Grid} {start : Position} {t0 : Nat} {parent : PMap}
    (hinv : PInv g start t0 parent) :
    ∀ (n : Nat) (e : State), e.t ≤ n → (alookup parent e).isSome →
    ∀ (fuel : Nat) (acc : List Position), e.t - t0 < fuel →
    ∃ l, reconstructAux parent fuel (some e) acc = .ok ((acc ++ l).reverse) ∧
      l ≠ [] ∧ l.getLast? = some start ∧ l.head? = some e.pos ∧
      (∀ x ∈ l, g.is_static_blocked x = false) ∧
      (∀ x ∈ l, x = start ∨ g.bounds.in_bounds x = true) ∧
      List.Chain' (fun a b => stepRel b a) l := by
  intro n
  induction n with
  | zero =>
    intro e het hsome fuel acc hfuel
    cases hv : alookup parent e with
    | none => rw [hv] at hsome; cases hsome
    | some v =>
      cases v with
      | none =>
        have heroot := hinv.root_uniq e hv
        have hepos : e.pos = start := congrArg State.pos heroot
        cases fuel with
        | zero => omega
        | succ f =>
          refine ⟨[e.pos], ?_, by simp, by simp [hepos], by simp, ?_, ?_, by simp⟩
          · unfold reconstructAux
            rw [hv]
            exact reconstructAux_none parent f (acc ++ [e.pos])
          · intro x hx
            rw [List.mem_singleton] at hx
            subst hx
            rw [hepos]
            exact hinv.start_unblocked
          · intro x hx
            rw [List.mem_singleton] at hx
            subst hx
            exact Or.inl hepos
      | some p =>
        have := (hinv.stepOK e p hv).1
        omega
  | succ n ih =>
    intro e het hsome fuel acc hfuel
    cases hv : alookup parent e with
    | none => rw [hv] at hsome; cases hsome
    | some v =>
      cases v with
      | none =>
        have heroot := hinv.root_uniq e hv
        have hepos : e.pos = start := congrArg State.pos heroot
        cases fuel with
        | zero => omega
        | succ f =>
          refine ⟨[e.pos], ?_, by simp, by simp [hepos], by simp, ?_, ?_, by simp⟩
          · unfold reconstructAux
            rw [hv]
            exact reconstructAux_none parent f (acc ++ [e.pos])
          · intro x hx
            rw [List.mem_singleton] at hx
            subst hx
            rw [hepos]
            exact hinv.start_unblocked
          · intro x hx
            rw [List.mem_singleton] at hx
            subst hx
            exact Or.inl hepos
      | some p =>
        obtain ⟨het2, hrel, hstatic_e, hpsome, hinb_e⟩ := hinv.stepOK e p hv
        have htp : t0 ≤ p.t := by
          obtain ⟨w, hw⟩ := Option.isSome_iff_exists.mp hpsome
          exact hinv.tmin p w hw
        cases fuel with
        | zero => omega
        | succ f =>
          obtain ⟨l', heq', hne', hlast', hhead', hstatic', hinb', hchain'⟩ :=
            ih p (by omega) hpsome f (acc ++ [e.pos]) (by omega)
          refine ⟨e.pos :: l', ?_, by simp, ?_, by simp, ?_, ?_, ?_⟩
          · have hred : reconstructAux parent (f + 1) (some e) acc
                = reconstructAux parent f (some p) (acc ++ [e.pos]) := by
              conv_lhs => unfold reconstructAux
              rw [hv]
            rw [hred, heq', List.append_assoc]
            rfl
          · cases l' with
            | nil => exact absurd rfl hne'
            | cons y ys =>
              rw [List.getLast?_cons_cons]
              exact hlast'
          · intro x hx
            rcases List.mem_cons.mp hx with h | h
            · subst h; exact hstatic_e
            · exact hstatic' x h
          · intro x hx
            rcases List.mem_cons.mp hx with h | h
            · subst h; exact hinb_e
            · exact hinb' x h
          · rw [List.chain'_cons']
            refine ⟨?_, hchain'⟩
            intro y hy
            rw [hhead'] at hy
            cases hy
            exact hrel

theorem reconstruct_path_spec {g : Grid} {start : Position} {t0 : Nat} {parent : PMap}
    (hinv : PInv g start t0 parent) (e : State)
    (he : (alookup parent e).isSome) :
    ∃ m, reconstruct_path parent e = .ok m ∧ pathOK g start m ∧
      (∀ x ∈ m, x = start ∨ g.bounds.in_bounds x = true) := by
  obtain ⟨l, heq, hne, hlast, hhead, hstatic, hinb, hchain⟩ :=
    reconstructAux_spec hinv e.t e le_rfl he (e.t + 1) [] (by omega)
  refine ⟨l.reverse, ?_, ⟨?_, ?_, ?_⟩, ?_⟩
  · unfold reconstruct_path
    rw [heq]
    simp
  · rw [List.head?_reverse]
    exact hlast
  · intro x hx
    exact hstatic x (List.mem_reverse.mp hx)
  · exact List.chain'_reverse.mpr hchain
  · intro x hx
    exact hinb x (List.mem_reverse.mp hx)

theorem passableAcc_sound (g : Grid) (t : Int) :
    ∀ (l r : List Position), passableAcc g t l = .ok r →
    ∀ q ∈ r, q ∈ l ∧ g.bounds.in_bounds q = true ∧ g.is_blocked q t = .ok false := by
  intro l
  induction l with
  | nil =>
    intro r h q hq
    unfold passableAcc at h
    cases h
    cases hq
  | cons c rest ih =>
    intro r h q hq
    unfold passableAcc at h
    split at h
    · obtain ⟨h1, h2, h3⟩ := ih r h q hq
      exact ⟨by simp [h1], h2, h3⟩
    · cases hb : g.is_blocked c t with
      | error e => rw [hb] at h; cases h
      | ok b =>
        rw [hb] at h
        cases b with
        | true =>
          obtain ⟨h1, h2, h3⟩ := ih r h q hq
          exact ⟨by simp [h1], h2, h3⟩
        | false =>
          cases hrec : passableAcc g t rest with
          | error e => rw [hrec] at h; cases h
          | ok l' =>
            rw [hrec] at h
            cases h
            rcases List.mem_cons.mp hq with h | h
            · subst h
              refine ⟨by simp, ?_, hb⟩
              rename_i hcond
              simpa using hcond
            · obtain ⟨h1, h2, h3⟩ := ih l' hrec q h
              exact ⟨by simp [h1], h2, h3⟩

theorem neighbors_sound (g : Grid) (pos : Position) (t : Int) (r : List Position)
    (h : g.neighbors pos t = .ok r) :
    ∀ q ∈ r, stepRel pos q ∧ g.bounds.in_bounds q = true ∧
      g.is_blocked q t = .ok false := by
  intro q hq
  unfold Grid.neighbors at h
  obtain ⟨hmem, hin, hbl⟩ := passableAcc_sound g t _ r h q hq
  refine ⟨?_, hin, hbl⟩
  simp only [List.mem_cons, List.not_mem_nil, or_false] at hmem
  rcases hmem with h1 | h1 | h1 | h1 <;>
    (subst h1; right; simp only []; omega)

theorem is_blocked_false_parts (g : Grid) (p : Position) (t : Int)
    (h : g.is_blocked p t = .ok false) :
    g.is_static_blocked p = false ∧ g.is_dynamic_blocked p t = .ok false := by
  unfold Grid.is_blocked at h
  split at h
  · cases h
  · rename_i hcond
    exact ⟨by simpa using hcond, h⟩

theorem bfsWaitAllowed_true (g : Grid) (cur : State)
    (h : bfsWaitAllowed g cur = .ok true) :
    g.is_blocked cur.pos ((cur.t + 1 : Nat) : Int) = .ok false := by
  unfold bfsWaitAllowed at h
  cases hb : g.is_blocked cur.pos ((cur.t + 1 : Nat) : Int) with
  | error e => rw [hb] at h; cases h
  | ok b =>
    rw [hb] at h
    cases b with
    | true => simp at h
    | false => rfl

theorem ucsWaitAllowed_true (g : Grid) (cur : State)
    (h : ucsWaitAllowed g cur = .ok true) :
    g.is_blocked cur.pos ((cur.t + 1 : Nat) : Int) = .ok false := by
  unfold ucsWaitAllowed at h
  cases hb : g.is_blocked cur.pos ((cur.t + 1 : Nat) : Int) with
  | error e => rw [hb] at h; cases h
  | ok b =>
    rw [hb] at h
    cases b with
    | true => simp at h
    | false => rfl

theorem astarWaitAllowed_true (g : Grid) (cur : State)
    (h : astarWaitAllowed g cur = .ok true) :
    g.is_blocked cur.pos ((cur.t + 1 : Nat) : Int) = .ok false := by
  unfold astarWaitAllowed at h
  cases hb : g.is_blocked cur.pos ((cur.t + 1 : Nat) : Int) with
  | error e => rw [hb] at h; cases h
  | ok b =>
    rw [hb] at h
    cases b with
    | true => simp at h
    | false => rfl

theorem ucsMoveEdges_sound (g : Grid) (cur : State) (moves : List Position)
    (h : ucsMoveEdges g cur = .ok moves) :
    ∀ q ∈ moves, g.is_static_blocked q = false ∧ stepRel cur.pos q ∧
      g.bounds.in_bounds q = true := by
  intro q hq
  unfold ucsMoveEdges at h
  cases hn : g.neighbors cur.pos ((cur.t + 1 : Nat) : Int) with
  | error e => rw [hn] at h; cases h
  | ok nl =>
    rw [hn] at h
    obtain ⟨hmem, _⟩ := filterNotDynNow_sound g cur.t nl moves h q hq
    obtain ⟨hrel, hin, hbl⟩ := neighbors_sound g cur.pos _ nl hn q hmem
    exact ⟨(is_blocked_false_parts g q _ hbl).1, hrel, hin⟩

theorem bfsMoveEdges_sound (g : Grid) (cur : State) (moves : List Position)
    (h : bfsMoveEdges g cur = .ok moves) :
    ∀ q ∈ moves, g.is_static_blocked q = false ∧ stepRel cur.pos q ∧
      g.bounds.in_bounds q = true := by
  intro q hq
  unfold bfsMoveEdges at h
  obtain ⟨hrel, hin, hbl⟩ := neighbors_sound g cur.pos _ moves h q hq
  exact ⟨(is_blocked_false_parts g q _ hbl).1, hrel, hin⟩

theorem bfsWaitStep_inv {g : Grid} {start : Position} {t0 : Nat} {parent : PMap}
    (cur : State) (wok : Bool) (rest : List State)
    (hinv : PInv g start t0 parent) (hfr : FrontierInv parent rest)
    (hcur : (alookup parent cur).isSome)
    (hwait : wok = true → g.is_static_blocked cur.pos = false) :
    PInv g start t0 (bfsWaitStep cur wok parent rest).1 ∧
    FrontierInv (bfsWaitStep cur wok parent rest).1 (bfsWaitStep cur wok parent rest).2 ∧
    (alookup (bfsWaitStep cur wok parent rest).1 cur).isSome := by
  unfold bfsWaitStep
  cases wok with
  | false =>
    simp only [Bool.false_eq_true, if_false]
    exact ⟨hinv, hfr, hcur⟩
  | true =>
    simp only [if_true]
    by_cases hseen : alookup parent ⟨cur.pos, cur.t + 1⟩ = none
    · rw [if_pos hseen]
      refine ⟨?_, ?_, ?_⟩
      · exact PInv.insert_child hinv cur cur.pos hcur (hwait rfl) (stepRel_refl _)
          (PInv.pos_inb hinv cur hcur)
      · intro s hs
        rcases List.mem_append.mp hs with h | h
        · exact alookup_isSome_cons _ _ _ _ (hfr s h)
        · rw [List.mem_singleton] at h
          subst h
          rw [alookup_cons, if_pos rfl]
          rfl
      · exact alookup_isSome_cons _ _ _ _ hcur
    · rw [if_neg hseen]
      exact ⟨hinv, hfr, hcur⟩

theorem bfsAddMoves_inv {g : Grid} {start : Position} {t0 : Nat} (cur : State) :
    ∀ (moves : List Position) (parent : PMap) (frontier : List State),
    PInv g start t0 parent → FrontierInv parent frontier →
    (alookup parent cur).isSome →
    (∀ m ∈ moves, g.is_static_blocked m = false ∧ stepRel cur.pos m ∧
      g.bounds.in_bounds m = true) →
    PInv g start t0 (bfsAddMoves cur (cur.t + 1) moves parent frontier).1 ∧
    FrontierInv (bfsAddMoves cur (cur.t + 1) moves parent frontier).1
      (bfsAddMoves cur (cur.t + 1) moves parent frontier).2 := by
  intro moves
  induction moves with
  | nil =>
    intro parent frontier hinv hfr _ _
    exact ⟨hinv, hfr⟩
  | cons npos rest ih =>
    intro parent frontier hinv hfr hcur hmoves
    unfold bfsAddMoves
    by_cases hseen : alookup parent ⟨npos, cur.t + 1⟩ = none
    · rw [if_pos hseen]
      apply ih
      · exact PInv.insert_child hinv cur npos hcur (hmoves npos (by simp)).1
          (hmoves npos (by simp)).2.1 (Or.inr (hmoves npos (by simp)).2.2)
      · intro s hs
        rcases List.mem_append.mp hs with h | h
        · exact alookup_isSome_cons _ _ _ _ (hfr s h)
        · rw [List.mem_singleton] at h
          subst h
          rw [alookup_cons, if_pos rfl]
          rfl
      · exact alookup_isSome_cons _ _ _ _ hcur
      · intro m hm
        exact hmoves m (by simp [hm])
    · rw [if_neg hseen]
      apply ih parent frontier hinv hfr hcur
      intro m hm
      exact hmoves m (by simp [hm])

theorem bfsLoop_sound (g : Grid) (start goal : Position) (t0 cap : Nat) :
    ∀ (fuel : Nat) (frontier : List State) (parent : PMap) (expanded : Nat)
      (res : Option (List Position)),
    PInv g start t0 parent → FrontierInv parent frontier →
    bfsLoop g goal cap fuel frontier parent expanded = .ok res →
    ∀ p, res = some p → pathOK g start p ∧
      (∀ x ∈ p, x = start ∨ g.bounds.in_bounds x = true) := by
  intro fuel
  induction fuel with
  | zero =>
    intro frontier parent expanded res _ _ h
    cases h
  | succ fuel ih =>
    intro frontier parent expanded res hinv hfr h p hp
    cases frontier with
    | nil =>
      injection h with h1
      rw [← h1] at hp
      cases hp
    | cons cur rest =>
      unfold bfsLoop at h
      by_cases hg : cur.pos = goal
      · rw [if_pos hg] at h
        have hcur : (alookup parent cur).isSome := hfr cur (by simp)
        obtain ⟨m, hm, hok, hinb⟩ := reconstruct_path_spec hinv cur hcur
        rw [hm] at h
        injection h with h1
        rw [← h1] at hp
        injection hp with hp1
        rw [← hp1]
        exact ⟨hok, hinb⟩
      · rw [if_neg hg] at h
        by_cases hcap : expanded + 1 > cap
        · rw [if_pos hcap] at h
          injection h with h1
          rw [← h1] at hp
          cases hp
        · rw [if_neg hcap] at h
          cases hw : bfsWaitAllowed g cur with
          | error e => rw [hw] at h; cases h
          | ok wok =>
            rw [hw] at h
            have hcur : (alookup parent cur).isSome := hfr cur (by simp)
            have hfr' : FrontierInv parent rest := fun s hs => hfr s (by simp [hs])
            obtain ⟨hinv1, hfr1, hcur1⟩ := bfsWaitStep_inv cur wok rest hinv hfr' hcur
              (fun hwok => by
                subst hwok
                exact (is_blocked_false_parts g cur.pos _ (bfsWaitAllowed_true g cur hw)).1)
            cases hm : bfsMoveEdges g cur with
            | error e => rw [hm] at h; cases h
            | ok moves =>
              rw [hm] at h
              obtain ⟨hinv2, hfr2⟩ := bfsAddMoves_inv cur moves
                (bfsWaitStep cur wok parent rest).1 (bfsWaitStep cur wok parent rest).2
                hinv1 hfr1 hcur1
                (fun m hm' => bfsMoveEdges_sound g cur moves hm m hm')
              exact ih _ _ _ res hinv2 hfr2 h p hp

theorem bfs_sound (g : Grid) (start goal : Position) (t0 cap : Nat)
    (p : List Position) (h : bfs g start goal t0 cap = .ok (some p)) :
    pathOK g start p ∧ (∀ x ∈ p, x = start ∨ g.bounds.in_bounds x = true) := by
  unfold bfs at h
  cases hb : g.is_blocked start (t0 : Int) with
  | error e => rw [hb] at h; cases h
  | ok b =>
    rw [hb] at h
    cases b with
    | true => cases h
    | false =>
      have hst : g.is_static_blocked start = false :=
        (is_blocked_false_parts g start _ hb).1
      refine bfsLoop_sound g start goal t0 cap _ _ _ _ _
        (PInv.initial g start t0 hst) ?_ h p rfl
      intro s hs
      rw [List.mem_singleton] at hs
      subst hs
      rw [alookup_cons, if_pos rfl]
      rfl

theorem popMinAux_mem :
    ∀ (l : List HEntry) (best : HEntry) (acc : List HEntry),
    ((popMinAux best acc l).1 ∈ best :: (acc ++ l)) ∧
    (∀ x ∈ (popMinAux best acc l).2, x ∈ best :: (acc ++ l)) := by
  intro l
  induction l with
  | nil =>
    intro best acc
    unfold popMinAux
    constructor
    · simp
    · intro x hx
      simp only [List.mem_reverse] at hx
      simp [hx]
  | cons y ys ih =>
    intro best acc
    unfold popMinAux
    split
    · obtain ⟨h1, h2⟩ := ih best (y :: acc)
      constructor
      · rcases List.mem_cons.mp h1 with h | h
        · simp [h]
        · simp only [List.mem_append, List.mem_cons] at h ⊢
          tauto
      · intro x hx
        have := h2 x hx
        simp only [List.mem_append, List.mem_cons] at this ⊢
        tauto
    · obtain ⟨h1, h2⟩ := ih y (best :: acc)
      constructor
      · rcases List.mem_cons.mp h1 with h | h
        · simp [h]
        · simp only [List.mem_append, List.mem_cons] at h ⊢
          tauto
      · intro x hx
        have := h2 x hx
        simp only [List.mem_append, List.mem_cons] at this ⊢
        tauto

theorem relax_inv {g : Grid} {start : Position} {t0 : Nat}
    (goal : Position) (cur : State) (cur_g : Int) (npos : Position)
    (step_cost : Int) (g_cost : GMap) (parent : PMap) (frontier : List HEntry)
    (counter : Nat)
    (hinv : PInv g start t0 parent) (hH : HInv parent g_cost frontier)
    (hcur : (alookup parent cur).isSome)
    (hst : g.is_static_blocked npos = false)
    (hrel : stepRel cur.pos npos)
    (hin : npos = start ∨ g.bounds.in_bounds npos = true) :
    PInv g start t0
        (relax goal cur cur_g ⟨npos, cur.t + 1⟩ step_cost g_cost parent frontier counter).2.1 ∧
    HInv (relax goal cur cur_g ⟨npos, cur.t + 1⟩ step_cost g_cost parent frontier counter).2.1
      (relax goal cur cur_g ⟨npos, cur.t + 1⟩ step_cost g_cost parent frontier counter).1
      (relax goal cur cur_g ⟨npos, cur.t + 1⟩ step_cost g_cost parent frontier counter).2.2.1 ∧
    (alookup (relax goal cur cur_g ⟨npos, cur.t + 1⟩ step_cost g_cost parent frontier counter).2.1
      cur).isSome := by
  have hpush :
      PInv g start t0 ((⟨npos, cur.t + 1⟩, some cur) :: parent) ∧
      HInv ((⟨npos, cur.t + 1⟩, some cur) :: parent)
        ((⟨npos, cur.t + 1⟩, cur_g + step_cost) :: g_cost)
        (⟨cur_g + step_cost + manhattan npos goal, counter, ⟨npos, cur.t + 1⟩⟩ :: frontier) ∧
      (alookup ((⟨npos, cur.t + 1⟩, some cur) :: parent) cur).isSome := by
    refine ⟨PInv.insert_child hinv cur npos hcur hst hrel hin, ?_,
      alookup_isSome_cons _ _ _ _ hcur⟩
    intro e he
    rcases List.mem_cons.mp he with h | h
    · subst h
      constructor
      · rw [alookup_cons, if_pos rfl]; rfl
      · rw [alookup_cons, if_pos rfl]; rfl
    · obtain ⟨h1, h2⟩ := hH e h
      exact ⟨alookup_isSome_cons _ _ _ _ h1, alookup_isSome_cons _ _ _ _ h2⟩
  unfold relax
  split
  · exact hpush
  · split
    · exact hpush
    · exact ⟨hinv, hH, hcur⟩

theorem movesFold_inv {g : Grid} {start : Position} {t0 : Nat}
    (goal : Position) (cur : State) (cur_g : Int) :
    ∀ (moves : List Position) (gc : GMap) (pm : PMap) (fr : List HEntry) (cnt : Nat)
      (st2 : GMap × PMap × List HEntry × Nat),
    PInv g start t0 pm → HInv pm gc fr → (alookup pm cur).isSome →
    (∀ m ∈ moves, g.is_static_blocked m = false ∧ stepRel cur.pos m ∧
      g.bounds.in_bounds m = true) →
    movesFold g goal cur cur_g moves gc pm fr cnt = .ok st2 →
    PInv g start t0 st2.2.1 ∧ HInv st2.2.1 st2.1 st2.2.2.1 := by
  intro moves
  induction moves with
  | nil =>
    intro gc pm fr cnt st2 hinv hH _ _ h
    cases h
    exact ⟨hinv, hH⟩
  | cons npos rest ih =>
    intro gc pm fr cnt st2 hinv hH hcur hmoves h
    unfold movesFold at h
    cases hc : g.get_cost npos with
    | error e => rw [hc] at h; cases h
    | ok move_cost =>
      rw [hc] at h
      obtain ⟨hinv', hH', hcur'⟩ := relax_inv goal cur cur_g npos move_cost gc pm fr cnt
        hinv hH hcur (hmoves npos (by simp)).1 (hmoves npos (by simp)).2.1
        (Or.inr (hmoves npos (by simp)).2.2)
      exact ih _ _ _ _ st2 hinv' hH' hcur' (fun m hm => hmoves m (by simp [hm])) h

theorem waitRelaxStep_inv {g : Grid} {start : Position} {t0 : Nat}
    (goal : Position) (cur : State) (cur_g : Int) (wok : Bool)
    (g_cost : GMap) (parent : PMap) (fr : List HEntry) (counter : Nat)
    (hinv : PInv g start t0 parent) (hH : HInv parent g_cost fr)
    (hcur : (alookup parent cur).isSome)
    (hwait : wok = true → g.is_static_blocked cur.pos = false) :
    PInv g start t0 (waitRelaxStep goal cur cur_g wok g_cost parent fr counter).2.1 ∧
    HInv (waitRelaxStep goal cur cur_g wok g_cost parent fr counter).2.1
      (waitRelaxStep goal cur cur_g wok g_cost parent fr counter).1
      (waitRelaxStep goal cur cur_g wok g_cost parent fr counter).2.2.1 ∧
    (alookup (waitRelaxStep goal cur cur_g wok g_cost parent fr counter).2.1 cur).isSome := by
  unfold waitRelaxStep
  cases wok with
  | false =>
    simp only [Bool.false_eq_true, if_false]
    exact ⟨hinv, hH, hcur⟩
  | true =>
    simp only [if_true]
    exact relax_inv goal cur cur_g cur.pos 1 g_cost parent fr counter hinv hH hcur
      (hwait rfl) (stepRel_refl _) (PInv.pos_inb hinv cur hcur)

theorem ucsLoop_sound (g : Grid) (start goal : Position) (t0 cap : Nat) :
    ∀ (fuel : Nat) (frontier : List HEntry) (g_cost : GMap) (parent : PMap)
      (expanded counter : Nat) (res : Option (List Position)),
    PInv g start t0 parent → HInv parent g_cost frontier →
    ucsLoop g goal cap fuel frontier g_cost parent expanded counter = .ok res →
    ∀ p, res = some p → pathOK g start p ∧
      (∀ x ∈ p, x = start ∨ g.bounds.in_bounds x = true) := by
  intro fuel
  induction fuel with
  | zero =>
    intro frontier g_cost parent expanded counter res _ _ h
    cases h
  | succ fuel ih =>
    intro frontier g_cost parent expanded counter res hinv hH h p hp
    cases frontier with
    | nil =>
      injection h with h1
      rw [← h1] at hp
      cases hp
    | cons e rest =>
      unfold ucsLoop at h
      split at h
      next m fr heq =>
        have hmem : m ∈ e :: rest := by
          have h0 := (popMinAux_mem rest e []).1
          rw [heq] at h0
          simpa using h0
        have hmem2 : ∀ x ∈ fr, x ∈ e :: rest := by
          intro x hx
          have h0 := (popMinAux_mem rest e []).2 x (by rw [heq]; exact hx)
          simpa using h0
        by_cases hg : m.s.pos = goal
        · rw [if_pos hg] at h
          have hcur : (alookup parent m.s).isSome := (hH _ hmem).1
          obtain ⟨m', hm', hok, hinb⟩ := reconstruct_path_spec hinv _ hcur
          rw [hm'] at h
          injection h with h1
          rw [← h1] at hp
          injection hp with hp1
          rw [← hp1]
          exact ⟨hok, hinb⟩
        · rw [if_neg hg] at h
          by_cases hcap : expanded + 1 > cap
          · rw [if_pos hcap] at h
            injection h with h1
            rw [← h1] at hp
            cases hp
          · rw [if_neg hcap] at h
            split at h
            · cases h
            next wok hw =>
              have hcur : (alookup parent m.s).isSome := (hH _ hmem).1
              have hH' : HInv parent g_cost fr := fun x hx => hH x (hmem2 x hx)
              obtain ⟨hinv1, hH1, hcur1⟩ := waitRelaxStep_inv goal m.s m.f wok
                g_cost parent fr counter hinv hH' hcur
                (fun hwok => by
                  subst hwok
                  exact (is_blocked_false_parts g _ _ (ucsWaitAllowed_true g _ hw)).1)
              split at h
              next gc1 pm1 fr1 cnt1 heq2 =>
                rw [heq2] at hinv1 hH1 hcur1
                split at h
                · cases h
                next moves hme =>
                  split at h
                  · cases h
                  next gc2 pm2 fr2 cnt2 hmf =>
                    obtain ⟨hinv2, hH2⟩ := movesFold_inv goal m.s m.f moves
                      gc1 pm1 fr1 cnt1 (gc2, pm2, fr2, cnt2) hinv1 hH1 hcur1
                      (fun q hq' => ucsMoveEdges_sound g m.s moves hme q hq') hmf
                    exact ih _ _ _ _ _ res hinv2 hH2 h p hp

theorem astarLoop_sound (g : Grid) (start goal : Position) (t0 cap : Nat) :
    ∀ (fuel : Nat) (frontier : List HEntry) (g_cost : GMap) (parent : PMap)
      (expanded counter : Nat) (res : Option (List Position)),
    PInv g start t0 parent → HInv parent g_cost frontier →
    astarLoop g goal cap fuel frontier g_cost parent expanded counter = .ok res →
    ∀ p, res = some p → pathOK g start p ∧
      (∀ x ∈ p, x = start ∨ g.bounds.in_bounds x = true) := by
  intro fuel
  induction fuel with
  | zero =>
    intro frontier g_cost parent expanded counter res _ _ h
    cases h
  | succ fuel ih =>
    intro frontier g_cost parent expanded counter res hinv hH h p hp
    cases frontier with
    | nil =>
      injection h with h1
      rw [← h1] at hp
      cases hp
    | cons e rest =>
      unfold astarLoop at h
      split at h
      next m fr heq =>
        have hmem : m ∈ e :: rest := by
          have h0 := (popMinAux_mem rest e []).1
          rw [heq] at h0
          simpa using h0
        have hmem2 : ∀ x ∈ fr, x ∈ e :: rest := by
          intro x hx
          have h0 := (popMinAux_mem rest e []).2 x (by rw [heq]; exact hx)
          simpa using h0
        split at h
        · cases h
        next cur_g hcg =>
          by_cases hg : m.s.pos = goal
          · rw [if_pos hg] at h
            have hcur : (alookup parent m.s).isSome := (hH _ hmem).1
            obtain ⟨m', hm', hok, hinb⟩ := reconstruct_path_spec hinv _ hcur
            rw [hm'] at h
            injection h with h1
            rw [← h1] at hp
            injection hp with hp1
            rw [← hp1]
            exact ⟨hok, hinb⟩
          · rw [if_neg hg] at h
            by_cases hcap : expanded + 1 > cap
            · rw [if_pos hcap] at h
              injection h with h1
              rw [← h1] at hp
              cases hp
            · rw [if_neg hcap] at h
              split at h
              · cases h
              next wok hw =>
                have hcur : (alookup parent m.s).isSome := (hH _ hmem).1
                have hH' : HInv parent g_cost fr := fun x hx => hH x (hmem2 x hx)
                obtain ⟨hinv1, hH1, hcur1⟩ := waitRelaxStep_inv goal m.s cur_g wok
                  g_cost parent fr counter hinv hH' hcur
                  (fun hwok => by
                    subst hwok
                    exact (is_blocked_false_parts g _ _ (astarWaitAllowed_true g _ hw)).1)
                split at h
                next gc1 pm1 fr1 cnt1 heq2 =>
                  rw [heq2] at hinv1 hH1 hcur1
                  split at h
                  · cases h
                  next moves hme =>
                    split at h
                    · cases h
                    next gc2 pm2 fr2 cnt2 hmf =>
                      obtain ⟨hinv2, hH2⟩ := movesFold_inv goal m.s cur_g moves
                        gc1 pm1 fr1 cnt1 (gc2, pm2, fr2, cnt2) hinv1 hH1 hcur1
                        (fun q hq' => ucsMoveEdges_sound g m.s moves hme q hq') hmf
                      exact ih _ _ _ _ _ res hinv2 hH2 h p hp

theorem ucs_sound (g : Grid) (start goal : Position) (t0 cap : Nat)
    (p : List Position) (h : ucs g start goal t0 cap = .ok (some p)) :
    pathOK g start p ∧ (∀ x ∈ p, x = start ∨ g.bounds.in_bounds x = true) := by
  unfold ucs at h
  cases hb : g.is_blocked start (t0 : Int) with
  | error e => rw [hb] at h; cases h
  | ok b =>
    rw [hb] at h
    cases b with
    | true => cases h
    | false =>
      have hst : g.is_static_blocked start = false :=
        (is_blocked_false_parts g start _ hb).1
      refine ucsLoop_sound g start goal t0 cap _ _ _ _ _ _ _
        (PInv.initial g start t0 hst) ?_ h p rfl
      intro e he
      rw [List.mem_singleton] at he
      subst he
      constructor
      · rw [alookup_cons, if_pos rfl]; rfl
      · rw [alookup_cons, if_pos rfl]; rfl

theorem astar_sound (g : Grid) (start goal : Position) (t0 cap : Nat)
    (p : List Position) (h : astar g start goal t0 cap = .ok (some p)) :
    pathOK g start p ∧ (∀ x ∈ p, x = start ∨ g.bounds.in_bounds x = true) := by
  unfold astar at h
  cases hb : g.is_blocked start (t0 : Int) with
  | error e => rw [hb] at h; cases h
  | ok b =>
    rw [hb] at h
    cases b with
    | true => cases h
    | false =>
      have hst : g.is_static_blocked start = false :=
        (is_blocked_false_parts g start _ hb).1
      refine astarLoop_sound g start goal t0 cap _ _ _ _ _ _ _
        (PInv.initial g start t0 hst) ?_ h p rfl
      intro e he
      rw [List.mem_singleton] at he
      subst he
      constructor
      · rw [alookup_cons, if_pos rfl]; rfl
      · rw [alookup_cons, if_pos rfl]; rfl

theorem is_dynamic_blocked_ok (g : Grid) (p : Position) (t : Int)
    (hobs : ∀ o ∈ g.dynamic_obstacles, o.path ≠ []) (ht : 0 ≤ t) :
    ∃ b, g.is_dynamic_blocked p t = .ok b := by
  obtain ⟨b, hb, _⟩ := anyOccupies_nonneg g.dynamic_obstacles p t ht hobs
  exact ⟨b, hb⟩

theorem is_blocked_ok (g : Grid) (p : Position) (t : Int)
    (hobs : ∀ o ∈ g.dynamic_obstacles, o.path ≠ []) (ht : 0 ≤ t) :
    ∃ b, g.is_blocked p t = .ok b := by
  unfold Grid.is_blocked
  by_cases hs : g.is_static_blocked p
  · rw [if_pos hs]
    exact ⟨true, rfl⟩
  · rw [if_neg hs]
    exact is_dynamic_blocked_ok g p t hobs ht

theorem passableAcc_ok (g : Grid) (t : Int)
    (hobs : ∀ o ∈ g.dynamic_obstacles, o.path ≠ []) (ht : 0 ≤ t) :
    ∀ l : List Position, ∃ r, passableAcc g t l = .ok r := by
  intro l
  induction l with
  | nil => exact ⟨[], rfl⟩
  | cons c rest ih =>
    obtain ⟨r, hr⟩ := ih
    unfold passableAcc
    by_cases hin : g.bounds.in_bounds c = false
    · rw [if_pos hin]
      exact ⟨r, hr⟩
    · rw [if_neg hin]
      obtain ⟨b, hb⟩ := is_blocked_ok g c t hobs ht
      rw [hb]
      cases b with
      | true => exact ⟨r, hr⟩
      | false =>
        rw [hr]
        exact ⟨c :: r, rfl⟩

theorem neighbors_ok (g : Grid) (pos : Position) (t : Int)
    (hobs : ∀ o ∈ g.dynamic_obstacles, o.path ≠ []) (ht : 0 ≤ t) :
    ∃ r, g.neighbors pos t = .ok r := by
  unfold Grid.neighbors
  exact passableAcc_ok g t hobs ht _

theorem filterNotDynNow_ok (g : Grid) (t : Nat)
    (hobs : ∀ o ∈ g.dynamic_obstacles, o.path ≠ []) :
    ∀ l : List Position, ∃ r, filterNotDynNow g t l = .ok r := by
  intro l
  induction l with
  | nil => exact ⟨[], rfl⟩
  | cons c rest ih =>
    obtain ⟨r, hr⟩ := ih
    unfold filterNotDynNow
    obtain ⟨b, hb⟩ := is_dynamic_blocked_ok g c (t : Int) hobs (Int.natCast_nonneg t)
    rw [hb]
    cases b with
    | true => exact ⟨r, hr⟩
    | false =>
      rw [hr]
      exact ⟨c :: r, rfl⟩

theorem bfsWaitAllowed_ok (g : Grid) (cur : State)
    (hobs : ∀ o ∈ g.dynamic_obstacles, o.path ≠ []) :
    ∃ b, bfsWaitAllowed g cur = .ok b := by
  unfold bfsWaitAllowed
  obtain ⟨b, hb⟩ := is_blocked_ok g cur.pos ((cur.t + 1 : Nat) : Int) hobs
    (Int.natCast_nonneg _)
  rw [hb]
  exact ⟨!b, rfl⟩

theorem ucsWaitAllowed_ok (g : Grid) (cur : State)
    (hobs : ∀ o ∈ g.dynamic_obstacles, o.path ≠ []) :
    ∃ b, ucsWaitAllowed g cur = .ok b := by
  unfold ucsWaitAllowed
  obtain ⟨b, hb⟩ := is_blocked_ok g cur.pos ((cur.t + 1 : Nat) : Int) hobs
    (Int.natCast_nonneg _)
  rw [hb]
  cases b with
  | true => exact ⟨false, rfl⟩
  | false =>
    obtain ⟨d, hd⟩ := is_dynamic_blocked_ok g cur.pos (cur.t : Int) hobs
      (Int.natCast_nonneg _)
    rw [hd]
    exact ⟨!d, rfl⟩

theorem astarWaitAllowed_ok (g : Grid) (cur : State)
    (hobs : ∀ o ∈ g.dynamic_obstacles, o.path ≠ []) :
    ∃ b, astarWaitAllowed g cur = .ok b := by
  unfold astarWaitAllowed
  obtain ⟨b, hb⟩ := is_blocked_ok g cur.pos ((cur.t + 1 : Nat) : Int) hobs
    (Int.natCast_nonneg _)
  rw [hb]
  exact ⟨!b, rfl⟩

theorem bfsMoveEdges_ok (g : Grid) (cur : State)
    (hobs : ∀ o ∈ g.dynamic_obstacles, o.path ≠ []) :
    ∃ r, bfsMoveEdges g cur = .ok r := by
  unfold bfsMoveEdges
  exact neighbors_ok g cur.pos _ hobs (Int.natCast_nonneg _)

theorem ucsMoveEdges_ok (g : Grid) (cur : State)
    (hobs : ∀ o ∈ g.dynamic_obstacles, o.path ≠ []) :
    ∃ r, ucsMoveEdges g cur = .ok r := by
  unfold ucsMoveEdges
  obtain ⟨nl, hnl⟩ := neighbors_ok g cur.pos ((cur.t + 1 : Nat) : Int) hobs
    (Int.natCast_nonneg _)
  rw [hnl]
  exact filterNotDynNow_ok g cur.t hobs nl

theorem astarMoveEdges_ok (g : Grid) (cur : State)
    (hobs : ∀ o ∈ g.dynamic_obstacles, o.path ≠ []) :
    ∃ r, astarMoveEdges g cur = .ok r :=
  ucsMoveEdges_ok g cur hobs

theorem get_cost_ok (g : Grid) (p : Position) (hwf : GridWF g)
    (hin : g.bounds.in_bounds p = true) : ∃ c, g.get_cost p = .ok c := by
  obtain ⟨hobs, hrows, hcols⟩ := hwf
  unfold Grid.get_cost
  rw [if_neg (by simp [hin])]
  unfold Bounds.in_bounds at hin
  simp only [Bool.and_eq_true, decide_eq_true_eq] at hin
  obtain ⟨⟨⟨hx0, hxw⟩, hy0⟩, hyh⟩ := hin
  cases hrow : g.terrain.get? p.2.toNat with
  | none =>
    rw [List.get?_eq_none] at hrow
    omega
  | some row =>
    have hrl : row.length = g.bounds.width.toNat :=
      hcols row (List.get?_mem hrow)
    cases hc : row.get? p.1.toNat with
    | none =>
      rw [List.get?_eq_none] at hc
      omega
    | some c =>
      refine ⟨c, ?_⟩
      show (match row.get? p.1.toNat with
            | none => Except.error "IndexError"
            | some c => Except.ok c) = Except.ok c
      rw [hc]

theorem movesFold_ok (g : Grid) (goal : Position) (cur : State) (cur_g : Int)
    (hwf : GridWF g) :
    ∀ (moves : List Position), (∀ m ∈ moves, g.bounds.in_bounds m = true) →
    ∀ (gc : GMap) (pm : PMap) (fr : List HEntry) (cnt : Nat),
    ∃ st2, movesFold g goal cur cur_g moves gc pm fr cnt = .ok st2 := by
  intro moves
  induction moves with
  | nil =>
    intro _ gc pm fr cnt
    exact ⟨(gc, pm, fr, cnt), rfl⟩
  | cons npos rest ih =>
    intro hin gc pm fr cnt
    unfold movesFold
    obtain ⟨c, hc⟩ := get_cost_ok g npos hwf (hin npos (by simp))
    rw [hc]
    exact ih (fun m hm => hin m (by simp [hm])) _ _ _ _

theorem bfsLoop_ok (g : Grid) (start goal : Position) (t0 cap : Nat) (hwf : GridWF g) :
    ∀ (fuel : Nat) (frontier : List State) (parent : PMap) (expanded : Nat)
      (res : Except String (Option (List Position))),
    PInv g start t0 parent → FrontierInv parent frontier →
    fuel + expanded = cap + 2 → expanded ≤ cap + 1 →
    bfsLoop g goal cap fuel frontier parent expanded = res →
    ∃ r, res = .ok r := by
  intro fuel
  induction fuel with
  | zero =>
    intro _ _ expanded _ _ _ harith hexp _
    omega
  | succ fuel ih =>
    intro frontier parent expanded res hinv hfr harith hexp h
    cases frontier with
    | nil => exact ⟨none, h.symm⟩
    | cons cur rest =>
      unfold bfsLoop at h
      by_cases hg : cur.pos = goal
      · rw [if_pos hg] at h
        obtain ⟨m, hm, _, _⟩ := reconstruct_path_spec hinv cur (hfr cur (by simp))
        rw [hm] at h
        exact ⟨some m, h.symm⟩
      · rw [if_neg hg] at h
        by_cases hcap : expanded + 1 > cap
        · rw [if_pos hcap] at h
          exact ⟨none, h.symm⟩
        · rw [if_neg hcap] at h
          split at h
          next e' hw =>
            obtain ⟨b, hb⟩ := bfsWaitAllowed_ok g cur hwf.1
            rw [hb] at hw
            cases hw
          next wok hw =>
            split at h
            next parent1 rest1 heq1 =>
              split at h
              next e' hme =>
                obtain ⟨mv, hmv⟩ := bfsMoveEdges_ok g cur hwf.1
                rw [hmv] at hme
                cases hme
              next moves hme =>
                split at h
                next parent2 rest2 heq2 =>
                  have hfr' : FrontierInv parent rest := fun s hs => hfr s (by simp [hs])
                  have hcur : (alookup parent cur).isSome := hfr cur (by simp)
                  obtain ⟨hinv1, hfr1, hcur1⟩ := bfsWaitStep_inv cur wok rest hinv hfr' hcur
                    (fun hwok => by
                      subst hwok
                      exact (is_blocked_false_parts g cur.pos _
                        (bfsWaitAllowed_true g cur hw)).1)
                  rw [heq1] at hinv1 hfr1 hcur1
                  obtain ⟨hinv2, hfr2⟩ := bfsAddMoves_inv cur moves parent1 rest1
                    hinv1 hfr1 hcur1
                    (fun q hq => bfsMoveEdges_sound g cur moves hme q hq)
                  rw [heq2] at hinv2 hfr2
                  exact ih rest2 parent2 (expanded + 1) res hinv2 hfr2
                    (by omega) (by omega) h

theorem ucsLoop_ok (g : Grid) (start goal : Position) (t0 cap : Nat) (hwf : GridWF g) :
    ∀ (fuel : Nat) (frontier : List HEntry) (g_cost : GMap) (parent : PMap)
      (expanded counter : Nat) (res : Except String (Option (List Position))),
    PInv g start t0 parent → HInv parent g_cost frontier →
    fuel + expanded = cap + 2 → expanded ≤ cap + 1 →
    ucsLoop g goal cap fuel frontier g_cost parent expanded counter = res →
    ∃ r, res = .ok r := by
  intro fuel
  induction fuel with
  | zero =>
    intro _ _ _ expanded _ _ _ _ harith hexp _
    omega
  | succ fuel ih =>
    intro frontier g_cost parent expanded counter res hinv hH harith hexp h
    cases frontier with
    | nil => exact ⟨none, h.symm⟩
    | cons e rest =>
      unfold ucsLoop at h
      split at h
      next m fr heq =>
        have hmem : m ∈ e :: rest := by
          have h0 := (popMinAux_mem rest e []).1
          rw [heq] at h0
          simpa using h0
        have hmem2 : ∀ x ∈ fr, x ∈ e :: rest := by
          intro x hx
          have h0 := (popMinAux_mem rest e []).2 x (by rw [heq]; exact hx)
          simpa using h0
        by_cases hg : m.s.pos = goal
        · rw [if_pos hg] at h
          obtain ⟨m', hm', _, _⟩ := reconstruct_path_spec hinv m.s (hH _ hmem).1
          rw [hm'] at h
          exact ⟨some m', h.symm⟩
        · rw [if_neg hg] at h
          by_cases hcap : expanded + 1 > cap
          · rw [if_pos hcap] at h
            exact ⟨none, h.symm⟩
          · rw [if_neg hcap] at h
            split at h
            next e' hw =>
              obtain ⟨b, hb⟩ := ucsWaitAllowed_ok g m.s hwf.1
              rw [hb] at hw
              cases hw
            next wok hw =>
              split at h
              next gc1 pm1 fr1 cnt1 heq2 =>
                split at h
                next e' hme =>
                  obtain ⟨mv, hmv⟩ := ucsMoveEdges_ok g m.s hwf.1
                  rw [hmv] at hme
                  cases hme
                next moves hme =>
                  have hcur : (alookup parent m.s).isSome := (hH _ hmem).1
                  have hH' : HInv parent g_cost fr := fun x hx => hH x (hmem2 x hx)
                  obtain ⟨hinv1, hH1, hcur1⟩ := waitRelaxStep_inv goal m.s m.f wok
                    g_cost parent fr counter hinv hH' hcur
                    (fun hwok => by
                      subst hwok
                      exact (is_blocked_false_parts g _ _
                        (ucsWaitAllowed_true g _ hw)).1)
                  rw [heq2] at hinv1 hH1 hcur1
                  split at h
                  next e' hmf =>
                    obtain ⟨st2, hst2⟩ := movesFold_ok g goal m.s m.f hwf moves
                      (fun q hq => (ucsMoveEdges_sound g m.s moves hme q hq).2.2)
                      gc1 pm1 fr1 cnt1
                    rw [hst2] at hmf
                    cases hmf
                  next gc2 pm2 fr2 cnt2 hmf =>
                    obtain ⟨hinv2, hH2⟩ := movesFold_inv goal m.s m.f moves
                      gc1 pm1 fr1 cnt1 (gc2, pm2, fr2, cnt2) hinv1 hH1 hcur1
                      (fun q hq => ucsMoveEdges_sound g m.s moves hme q hq) hmf
                    exact ih fr2 gc2 pm2 (expanded + 1) cnt2 res hinv2 hH2
                      (by omega) (by omega) h

theorem astarLoop_ok (g : Grid) (start goal : Position) (t0 cap : Nat) (hwf : GridWF g) :
    ∀ (fuel : Nat) (frontier : List HEntry) (g_cost : GMap) (parent : PMap)
      (expanded counter : Nat) (res : Except String (Option (List Position))),
    PInv g start t0 parent → HInv parent g_cost frontier →
    fuel + expanded = cap + 2 → expanded ≤ cap + 1 →
    astarLoop g goal cap fuel frontier g_cost parent expanded counter = res →
    ∃ r, res = .ok r := by
  intro fuel
  induction fuel with
  | zero =>
    intro _ _ _ expanded _ _ _ _ harith hexp _
    omega
  | succ fuel ih =>
    intro frontier g_cost parent expanded counter res hinv hH harith hexp h
    cases frontier with
    | nil => exact ⟨none, h.symm⟩
    | cons e rest =>
      unfold astarLoop at h
      split at h
      next m fr heq =>
        have hmem : m ∈ e :: rest := by
          have h0 := (popMinAux_mem rest e []).1
          rw [heq] at h0
          simpa using h0
        have hmem2 : ∀ x ∈ fr, x ∈ e :: rest := by
          intro x hx
          have h0 := (popMinAux_mem rest e []).2 x (by rw [heq]; exact hx)
          simpa using h0
        split at h
        next hcg =>
          have := (hH _ hmem).2
          rw [hcg] at this
          cases this
        next cur_g hcg =>
          by_cases hg : m.s.pos = goal
          · rw [if_pos hg] at h
            obtain ⟨m', hm', _, _⟩ := reconstruct_path_spec hinv m.s (hH _ hmem).1
            rw [hm'] at h
            exact ⟨some m', h.symm⟩
          · rw [if_neg hg] at h
            by_cases hcap : expanded + 1 > cap
            · rw [if_pos hcap] at h
              exact ⟨none, h.symm⟩
            · rw [if_neg hcap] at h
              split at h
              next e' hw =>
                obtain ⟨b, hb⟩ := astarWaitAllowed_ok g m.s hwf.1
                rw [hb] at hw
                cases hw
              next wok hw =>
                split at h
                next gc1 pm1 fr1 cnt1 heq2 =>
                  split at h
                  next e' hme =>
                    obtain ⟨mv, hmv⟩ := astarMoveEdges_ok g m.s hwf.1
                    rw [hmv] at hme
                    cases hme
                  next moves hme =>
                    have hcur : (alookup parent m.s).isSome := (hH _ hmem).1
                    have hH' : HInv parent g_cost fr := fun x hx => hH x (hmem2 x hx)
                    obtain ⟨hinv1, hH1, hcur1⟩ := waitRelaxStep_inv goal m.s cur_g wok
                      g_cost parent fr counter hinv hH' hcur
                      (fun hwok => by
                        subst hwok
                        exact (is_blocked_false_parts g _ _
                          (astarWaitAllowed_true g _ hw)).1)
                    rw [heq2] at hinv1 hH1 hcur1
                    split at h
                    next e' hmf =>
                      obtain ⟨st2, hst2⟩ := movesFold_ok g goal m.s cur_g hwf moves
                        (fun q hq => (ucsMoveEdges_sound g m.s moves hme q hq).2.2)
                        gc1 pm1 fr1 cnt1
                      rw [hst2] at hmf
                      cases hmf
                    next gc2 pm2 fr2 cnt2 hmf =>
                      obtain ⟨hinv2, hH2⟩ := movesFold_inv goal m.s cur_g moves
                        gc1 pm1 fr1 cnt1 (gc2, pm2, fr2, cnt2) hinv1 hH1 hcur1
                        (fun q hq => ucsMoveEdges_sound g m.s moves hme q hq) hmf
                      exact ih fr2 gc2 pm2 (expanded + 1) cnt2 res hinv2 hH2
                        (by omega) (by omega) h

theorem bfs_ok (g : Grid) (start goal : Position) (t0 cap : Nat) (hwf : GridWF g) :
    ∃ r, bfs g start goal t0 cap = .ok r := by
  unfold bfs
  obtain ⟨b, hb⟩ := is_blocked_ok g start (t0 : Int) hwf.1 (Int.natCast_nonneg _)
  rw [hb]
  cases b with
  | true => exact ⟨none, rfl⟩
  | false =>
    have hst : g.is_static_blocked start = false :=
      (is_blocked_false_parts g start _ hb).1
    exact bfsLoop_ok g start goal t0 cap hwf (cap + 2) _ _ 0 _
      (PInv.initial g start t0 hst)
      (fun s hs => by
        rw [List.mem_singleton] at hs
        subst hs
        rw [alookup_cons, if_pos rfl]
        rfl)
      (by omega) (by omega) rfl

theorem ucs_ok (g : Grid) (start goal : Position) (t0 cap : Nat) (hwf : GridWF g) :
    ∃ r, ucs g start goal t0 cap = .ok r := by
  unfold ucs
  obtain ⟨b, hb⟩ := is_blocked_ok g start (t0 : Int) hwf.1 (Int.natCast_nonneg _)
  rw [hb]
  cases b with
  | true => exact ⟨none, rfl⟩
  | false =>
    have hst : g.is_static_blocked start = false :=
      (is_blocked_false_parts g start _ hb).1
    exact ucsLoop_ok g start goal t0 cap hwf (cap + 2) _ _ _ 0 1 _
      (PInv.initial g start t0 hst)
      (fun e he => by
        rw [List.mem_singleton] at he
        subst he
        exact ⟨by rw [alookup_cons, if_pos rfl]; rfl,
               by rw [alookup_cons, if_pos rfl]; rfl⟩)
      (by omega) (by omega) rfl

theorem astar_ok (g : Grid) (start goal : Position) (t0 cap : Nat) (hwf : GridWF g) :
    ∃ r, astar g start goal t0 cap = .ok r := by
  unfold astar
  obtain ⟨b, hb⟩ := is_blocked_ok g start (t0 : Int) hwf.1 (Int.natCast_nonneg _)
  rw [hb]
  cases b with
  | true => exact ⟨none, rfl⟩
  | false =>
    have hst : g.is_static_blocked start = false :=
      (is_blocked_false_parts g start _ hb).1
    exact astarLoop_ok g start goal t0 cap hwf (cap + 2) _ _ _ 0 1 _
      (PInv.initial g start t0 hst)
      (fun e he => by
        rw [List.mem_singleton] at he
        subst he
        exact ⟨by rw [alookup_cons, if_pos rfl]; rfl,
               by rw [alookup_cons, if_pos rfl]; rfl⟩)
      (by omega) (by omega) rfl

theorem bfsLoop_exhaust (g : Grid) (goal : Position) (cap fuel : Nat)
    (parent : PMap) (expanded : Nat) :
    bfsLoop g goal cap (fuel + 1) [] parent expanded = .ok none := rfl

theorem bfsLoop_cap (g : Grid) (goal : Position) (cap fuel : Nat) (cur : State)
    (rest : List State) (parent : PMap) (expanded : Nat)
    (hg : cur.pos ≠ goal) (hcap : expanded + 1 > cap) :
    bfsLoop g goal cap (fuel + 1) (cur :: rest) parent expanded = .ok none := by
  unfold bfsLoop
  rw [if_neg hg, if_pos hcap]

theorem ucsLoop_exhaust (g : Grid) (goal : Position) (cap fuel : Nat)
    (g_cost : GMap) (parent : PMap) (expanded counter : Nat) :
    ucsLoop g goal cap (fuel + 1) [] g_cost parent expanded counter = .ok none := rfl

theorem ucsLoop_cap (g : Grid) (goal : Position) (cap fuel : Nat) (e : HEntry)
    (rest : List HEntry) (g_cost : GMap) (parent : PMap) (expanded counter : Nat)
    (hg : (popMinAux e [] rest).1.s.pos ≠ goal) (hcap : expanded + 1 > cap) :
    ucsLoop g goal cap (fuel + 1) (e :: rest) g_cost parent expanded counter
      = .ok none := by
  unfold ucsLoop
  split
  next m fr heq =>
    have hg' : m.s.pos ≠ goal := by rw [heq] at hg; exact hg
    rw [if_neg hg', if_pos hcap]

theorem astarLoop_exhaust (g : Grid) (goal : Position) (cap fuel : Nat)
    (g_cost : GMap) (parent : PMap) (expanded counter : Nat) :
    astarLoop g goal cap (fuel + 1) [] g_cost parent expanded counter = .ok none := rfl

theorem astarLoop_cap (g : Grid) (goal : Position) (cap fuel : Nat) (e : HEntry)
    (rest : List HEntry) (g_cost : GMap) (parent : PMap) (expanded counter : Nat)
    (cg : Int) (hcg : alookup g_cost (popMinAux e [] rest).1.s = some cg)
    (hg : (popMinAux e [] rest).1.s.pos ≠ goal) (hcap : expanded + 1 > cap) :
    astarLoop g goal cap (fuel + 1) (e :: rest) g_cost parent expanded counter
      = .ok none := by
  unfold astarLoop
  split
  next m fr heq =>
    have hg' : m.s.pos ≠ goal := by rw [heq] at hg; exact hg
    have hcg' : alookup g_cost m.s = some cg := by rw [heq] at hcg; exact hcg
    rw [hcg']
    dsimp only []
    rw [if_neg hg', if_pos hcap]

theorem conflictCheck_ok (g : Grid) (p : Position) (t : Nat)
    (hobs : ∀ o ∈ g.dynamic_obstacles, o.path ≠ []) :
    ∃ b, conflictCheck g p t = .ok b := by
  unfold conflictCheck
  obtain ⟨b, hb⟩ := is_blocked_ok g p ((t + 1 : Nat) : Int) hobs (Int.natCast_nonneg _)
  rw [hb]
  cases b with
  | true => exact ⟨true, rfl⟩
  | false => exact is_dynamic_blocked_ok g p (t : Int) hobs (Int.natCast_nonneg _)

theorem plan_spec (a : Agent) (halgo : (algoFn a.config.algo).isSome = true)
    (hwf : GridWF a.grid) :
    ∃ b a', a.plan = .ok (b, a') ∧
      a'.grid = a.grid ∧ a'.pos = a.pos ∧ a'.t = a.t ∧ a'.goal = a.goal ∧
      a'.config = a.config ∧
      a'.dynamic_conflicts = a.dynamic_conflicts ∧
      a'.replan_count = a.replan_count ∧
      (b = true → ∀ q ∈ a'._plan, q = a.pos ∨ a.grid.bounds.in_bounds q = true) ∧
      (b = false → a'._plan = []) := by
  unfold Agent.plan
  cases hf : algoFn a.config.algo with
  | none => rw [hf] at halgo; cases halgo
  | some f =>
    have hf3 : (∀ (g : Grid) (s go : Position) (t : Nat), f g s go t = bfs g s go t 200000) ∨
               (∀ (g : Grid) (s go : Position) (t : Nat), f g s go t = ucs g s go t 200000) ∨
               (∀ (g : Grid) (s go : Position) (t : Nat), f g s go t = astar g s go t 200000) := by
      unfold algoFn at hf
      split at hf
      · injection hf with hf
        exact Or.inl (fun g s go t => by rw [← hf])
      · split at hf
        · injection hf with hf
          exact Or.inr (Or.inl (fun g s go t => by rw [← hf]))
        · split at hf
          · injection hf with hf
            exact Or.inr (Or.inr (fun g s go t => by rw [← hf]))
          · cases hf
    have hres : ∃ res, f a.grid a.pos a.goal a.t = .ok res ∧
        ∀ p, res = some p → ∀ x ∈ p, x = a.pos ∨ a.grid.bounds.in_bounds x = true := by
      rcases hf3 with h3 | h3 | h3
      · obtain ⟨r, hr⟩ := bfs_ok a.grid a.pos a.goal a.t 200000 hwf
        refine ⟨r, by rw [h3]; exact hr, ?_⟩
        intro p hres x hx
        subst hres
        exact (bfs_sound a.grid a.pos a.goal a.t 200000 p hr).2 x hx
      · obtain ⟨r, hr⟩ := ucs_ok a.grid a.pos a.goal a.t 200000 hwf
        refine ⟨r, by rw [h3]; exact hr, ?_⟩
        intro p hres x hx
        subst hres
        exact (ucs_sound a.grid a.pos a.goal a.t 200000 p hr).2 x hx
      · obtain ⟨r, hr⟩ := astar_ok a.grid a.pos a.goal a.t 200000 hwf
        refine ⟨r, by rw [h3]; exact hr, ?_⟩
        intro p hres x hx
        subst hres
        exact (astar_sound a.grid a.pos a.goal a.t 200000 p hr).2 x hx
    obtain ⟨res, hres_eq, hres_sound⟩ := hres
    dsimp only []
    rw [hres_eq]
    cases res with
    | none =>
      refine ⟨false, _, rfl, rfl, rfl, rfl, rfl, rfl, rfl, rfl, ?_, ?_⟩
      · intro hc; cases hc
      · intro _; rfl
    | some p =>
      cases p with
      | nil =>
        refine ⟨false, _, rfl, rfl, rfl, rfl, rfl, rfl, rfl, rfl, ?_, ?_⟩
        · intro hc; cases hc
        · intro _; rfl
      | cons x rest =>
        refine ⟨true, _, rfl, rfl, rfl, rfl, rfl, rfl, rfl, rfl, ?_, ?_⟩
        · intro _ q hq
          exact hres_sound (x :: rest) rfl q (by simp [hq])
        · intro hc; cases hc

theorem bestOf_ok (g : Grid) (apos goal : Position) (hwf : GridWF g) :
    ∀ (l : List Position), (∀ c ∈ l, c = apos ∨ g.bounds.in_bounds c = true) →
    ∀ (best0 : Option (Position × Int)),
    ∃ r, bestOf g apos goal l best0 = .ok r := by
  intro l
  induction l with
  | nil =>
    intro _ best0
    exact ⟨best0, rfl⟩
  | cons cand rest ih =>
    intro hl best0
    unfold bestOf
    by_cases hc : cand = apos
    · rw [if_pos hc]
      exact ih (fun c hcm => hl c (by simp [hcm])) _
    · rw [if_neg hc]
      have hin : g.bounds.in_bounds cand = true := by
        rcases hl cand (by simp) with h | h
        · exact absurd h hc
        · exact h
      obtain ⟨cost, hcost⟩ := get_cost_ok g cand hwf hin
      rw [hcost]
      exact ih (fun c hcm => hl c (by simp [hcm])) _

theorem bestOf_mem (g : Grid) (apos goal : Position) :
    ∀ (l : List Position) (best0 r : Option (Position × Int)),
    bestOf g apos goal l best0 = .ok r →
    r = best0 ∨ ∃ s, r = some s ∧ s.1 ∈ l := by
  intro l
  induction l with
  | nil =>
    intro best0 r h
    cases h
    exact Or.inl rfl
  | cons cand rest ih =>
    intro best0 r h
    unfold bestOf at h
    cases hcost : (if cand = apos then .ok 1 else g.get_cost cand : Except String Int) with
    | error e => rw [hcost] at h; cases h
    | ok move_cost =>
      rw [hcost] at h
      rcases ih _ r h with hr | ⟨s, hs, hmem⟩
      · cases best0 with
        | none =>
          right
          exact ⟨(cand, move_cost + manhattan cand goal), by rw [hr], by simp⟩
        | some bp0 =>
          obtain ⟨bp, bs⟩ := bp0
          by_cases hlt : move_cost + manhattan cand goal < bs
          · right
            refine ⟨(cand, move_cost + manhattan cand goal), ?_, by simp⟩
            rw [hr]
            dsimp only []
            rw [if_pos hlt]
          · left
            rw [hr]
            dsimp only []
            rw [if_neg hlt]
      · right
        exact ⟨s, hs, by simp [hmem]⟩

theorem rngShuffle_subset {α : Type} (r : Rng) (l out : List α) (r2 : Rng)
    (heq : rngShuffle r l = (out, r2)) : ∀ x ∈ out, x ∈ l := by
  intro x hx
  have hm : x ∈ (rngShuffle r l).1 := by rw [heq]; exact hx
  unfold rngShuffle at hm
  dsimp only [] at hm
  rcases List.mem_append.mp hm with h | h
  · exact List.mem_of_mem_drop h
  · exact List.mem_of_mem_take h

theorem hillExec_ok (a : Agent) (bp : Position) (hwf : GridWF a.grid)
    (hp : bp = a.pos ∨ a.grid.bounds.in_bounds bp = true) :
    ∃ a2, hillExec a bp = .ok a2 ∧
      a2.dynamic_conflicts = a.dynamic_conflicts ∧
      a2.replan_count = a.replan_count := by
  unfold hillExec
  by_cases hc : bp = a.pos
  · rw [if_pos hc]
    exact ⟨_, rfl, rfl, rfl⟩
  · rw [if_neg hc]
    have hin : a.grid.bounds.in_bounds bp = true := by
      rcases hp with h | h
      · exact absurd h hc
      · exact h
    obtain ⟨cost, hcost⟩ := get_cost_ok a.grid bp hwf hin
    rw [hcost]
    exact ⟨_, rfl, rfl, rfl⟩

theorem hillAttempts_spec (a : Agent) (hwf : GridWF a.grid) :
    ∀ (n : Nat) (rng : Rng) (res : Except String (Bool × Agent × Rng)),
    hillAttempts a n rng = res →
    ∃ b a2 r2, res = .ok (b, a2, r2) ∧ (b = false → a2 = a) ∧
      a2.dynamic_conflicts = a.dynamic_conflicts ∧
      a2.replan_count = a.replan_count := by
  intro n
  induction n with
  | zero =>
    intro rng res h
    exact ⟨false, a, rng, h.symm, fun _ => rfl, rfl, rfl⟩
  | succ n ih =>
    intro rng res h
    unfold hillAttempts at h
    obtain ⟨wb, hwb⟩ := is_blocked_ok a.grid a.pos ((a.t + 1 : Nat) : Int)
      hwf.1 (Int.natCast_nonneg _)
    rw [hwb] at h
    dsimp only [] at h
    have hwait : ∃ wc, (if wb then .ok ([] : List Position)
        else match a.grid.is_dynamic_blocked a.pos (a.t : Int) with
             | .error e => .error e
             | .ok true => .ok []
             | .ok false => .ok [a.pos] : Except String (List Position)) = .ok wc ∧
        ∀ c ∈ wc, c = a.pos := by
      cases wb with
      | true => exact ⟨[], by simp, by simp⟩
      | false =>
        obtain ⟨d, hd⟩ := is_dynamic_blocked_ok a.grid a.pos (a.t : Int)
          hwf.1 (Int.natCast_nonneg _)
        cases d with
        | true =>
          refine ⟨[], ?_, by simp⟩
          simp only [Bool.false_eq_true, if_false]
          rw [hd]
        | false =>
          refine ⟨[a.pos], ?_, by simp⟩
          simp only [Bool.false_eq_true, if_false]
          rw [hd]
    obtain ⟨waitC, hwaitC, hwprop⟩ := hwait
    rw [hwaitC] at h
    dsimp only [] at h
    obtain ⟨neigh, hneigh⟩ := neighbors_ok a.grid a.pos ((a.t + 1 : Nat) : Int)
      hwf.1 (Int.natCast_nonneg _)
    rw [hneigh] at h
    dsimp only [] at h
    obtain ⟨moves, hmoves⟩ := filterNotDynNow_ok a.grid a.t hwf.1 neigh
    rw [hmoves] at h
    dsimp only [] at h
    by_cases hemp : (waitC ++ moves).isEmpty
    · rw [if_pos hemp] at h
      exact ih rng res h
    · rw [if_neg hemp] at h
      have hcand : ∀ c ∈ waitC ++ moves,
          c = a.pos ∨ a.grid.bounds.in_bounds c = true := by
        intro c hc
        rcases List.mem_append.mp hc with hcw | hcm
        · exact Or.inl (hwprop c hcw)
        · have hmn := (filterNotDynNow_sound a.grid a.t neigh moves hmoves c hcm).1
          exact Or.inr (neighbors_sound a.grid a.pos _ neigh hneigh c hmn).2.1
      have hprop : ∀ c ∈ (rngShuffle rng (waitC ++ moves)).1.take
          a.config.hill_climb_neighbors,
          c = a.pos ∨ a.grid.bounds.in_bounds c = true := by
        intro c hc
        exact hcand c (rngShuffle_subset rng (waitC ++ moves)
          (rngShuffle rng (waitC ++ moves)).1 (rngShuffle rng (waitC ++ moves)).2 rfl c
          (List.mem_of_mem_take hc))
      split at h
      next e hbe =>
        obtain ⟨bres, hbres⟩ := bestOf_ok a.grid a.pos a.goal hwf _ hprop none
        rw [hbres] at hbe
        cases hbe
      next hbn => exact ih _ res h
      next bp hbs =>
        have hbp : bp.1 = a.pos ∨ a.grid.bounds.in_bounds bp.1 = true := by
          rcases bestOf_mem a.grid a.pos a.goal _ none (some bp) hbs with hc | ⟨s, hs, hsm⟩
          · cases hc
          · injection hs with hs2
            subst hs2
            exact hprop bp.1 hsm
        obtain ⟨a2, hexec, hdc, hrc⟩ := hillExec_ok a bp.1 hwf hbp
        rw [hexec] at h
        dsimp only [] at h
        refine ⟨true, a2, (rngShuffle rng (waitC ++ moves)).2, h.symm, ?_, hdc, hrc⟩
        intro hc
        cases hc

theorem local_hill_climb_spec (a : Agent) (hwf : GridWF a.grid) (rng : Rng) :
    ∃ b a2 r2, a.local_hill_climb_move rng = .ok (b, a2, r2) ∧
      (b = false → a2 = a) ∧
      a2.dynamic_conflicts = a.dynamic_conflicts ∧
      a2.replan_count = a.replan_count := by
  unfold Agent.local_hill_climb_move
  exact hillAttempts_spec a hwf (max 1 a.config.hill_climb_attempts) rng _ rfl

theorem execStep_ok (a : Agent) (next_pos : Position) (rt : Bool)
    (hwf : GridWF a.grid)
    (hp : next_pos = a.pos ∨ a.grid.bounds.in_bounds next_pos = true) :
    ∃ a2, execStep a next_pos rt = .ok a2 ∧
      a2.dynamic_conflicts = a.dynamic_conflicts ∧
      a2.replan_count = a.replan_count := by
  have hdrop : ∀ a1 : Agent, (execDrop a1).dynamic_conflicts = a1.dynamic_conflicts ∧
      (execDrop a1).replan_count = a1.replan_count := by
    intro a1
    unfold execDrop
    cases a1._plan with
    | nil => exact ⟨rfl, rfl⟩
    | cons q rest =>
      dsimp only []
      by_cases hq : q = a1.pos
      · rw [if_pos hq]
        exact ⟨rfl, rfl⟩
      · rw [if_neg hq]
        exact ⟨rfl, rfl⟩
  unfold execStep
  by_cases hc : next_pos = a.pos
  · rw [if_pos hc]
    exact ⟨_, rfl, (hdrop _).1, (hdrop _).2⟩
  · rw [if_neg hc]
    have hin : a.grid.bounds.in_bounds next_pos = true := by
      rcases hp with h | h
      · exact absurd h hc
      · exact h
    obtain ⟨cost, hcost⟩ := get_cost_ok a.grid next_pos hwf hin
    rw [hcost]
    exact ⟨_, rfl, (hdrop _).1, (hdrop _).2⟩

theorem getD_append_lt (l : List (List Position)) (v : List Position) (i : Nat)
    (hi : i < l.length) : (l ++ [v]).getD i [] = l.getD i [] := by
  induction l generalizing i with
  | nil => cases hi
  | cons x xs ih =>
    cases i with
    | zero => rfl
    | succ j => exact ih j (Nat.lt_of_succ_lt_succ hi)

theorem getD_set_append (l : List (List Position)) (v w : List Position) (i : Nat)
    (hi : i < l.length) :
    ((l ++ [v]).set l.length w).getD i [] = l.getD i [] := by
  induction l generalizing i with
  | nil => cases hi
  | cons x xs ih =>
    cases i with
    | zero => rfl
    | succ j => exact ih j (Nat.lt_of_succ_lt_succ hi)

/-! ## Claim theorems -/

/-- C1 counterexample: the claim that all three algorithms apply the
current-time swap-collision check to move edges is false for bfs. On
`gSwap` at state `((0,0), 0)` the cell `(1,0)` is dynamically occupied at
the current time 0, yet bfs generates the move edge into it (and the full
bfs run returns the swap-collision path), while ucs and astar filter that
edge out. -/
theorem C1_cex :
    bfsMoveEdges gSwap ⟨(0, 0), 0⟩ = .ok [(1, 0)] ∧
    gSwap.is_dynamic_blocked (1, 0) 0 = .ok true ∧
    ucsMoveEdges gSwap ⟨(0, 0), 0⟩ = .ok [] ∧
    astarMoveEdges gSwap ⟨(0, 0), 0⟩ = .ok [] ∧
    bfs gSwap (0, 0) (1, 0) 0 200000 = .ok (some [(0, 0), (1, 0)]) := by
  refine ⟨by decide, by decide, by decide, by decide, by decide⟩

/-- C1 amended: ucs and astar apply the current-time swap-collision check
identically to every move edge they generate (their move-edge relations
are the same function, and every generated move target is dynamically free
at the current time `t`); bfs applies no such check — its move edges are
exactly the unfiltered neighbors passable at `t+1`. -/
theorem C1_move_edge_check (g : Grid) (cur : State) :
    ucsMoveEdges g cur = astarMoveEdges g cur ∧
    bfsMoveEdges g cur = g.neighbors cur.pos ((cur.t + 1 : Nat) : Int) ∧
    (∀ l p, ucsMoveEdges g cur = .ok l → p ∈ l →
      g.is_dynamic_blocked p (cur.t : Int) = .ok false) ∧
    (∀ l p, astarMoveEdges g cur = .ok l → p ∈ l →
      g.is_dynamic_blocked p (cur.t : Int) = .ok false) := by
  refine ⟨rfl, rfl, ?_, ?_⟩
  · intro l p h hp
    unfold ucsMoveEdges at h
    cases hn : g.neighbors cur.pos ((cur.t + 1 : Nat) : Int) with
    | error e => rw [hn] at h; cases h
    | ok nl =>
      rw [hn] at h
      exact (filterNotDynNow_sound g cur.t nl l h p hp).2
  · intro l p h hp
    unfold astarMoveEdges at h
    cases hn : g.neighbors cur.pos ((cur.t + 1 : Nat) : Int) with
    | error e => rw [hn] at h; cases h
    | ok nl =>
      rw [hn] at h
      exact (filterNotDynNow_sound g cur.t nl l h p hp).2

/-- C1 witness: the amended theorem applied on the free grid, where ucs
does generate the move edge `(1,0)` and it is indeed dynamically free at
time 0. -/
theorem C1_witness :
    gFree.is_dynamic_blocked (1, 0) 0 = .ok false :=
  (C1_move_edge_check gFree ⟨(0, 0), 0⟩).2.2.1 [(1, 0)] (1, 0) (by decide) (by decide)

/-- C2: when `step()` finds the next planned position in conflict (the
combined blocked-at-`t+1` / dynamically-occupied-at-`t` check), it
increments both the dynamic-conflict counter and the replan counter and
replans; if the replanning fails outright, or succeeds with a first step
that is still in conflict, the local hill-climb fallback decides the
outcome (`step()` fails exactly when the fallback fails); and on failure
the agent is marked stuck with its position and time unchanged. Stated on
well-formed grids with a validated algorithm name (what the constructor
guarantees). -/
theorem C2_step_conflict (a : Agent) (next_pos : Position) (restPlan : List Position)
    (rng : Rng)
    (hwf : GridWF a.grid)
    (halgo : (algoFn a.config.algo).isSome = true)
    (hng : a.at_goal = false)
    (hplan : a._plan = next_pos :: restPlan)
    (hconf : conflictCheck a.grid next_pos a.t = .ok true) :
    ∃ b a' r', a.step rng = .ok (b, a', r') ∧
      a'.dynamic_conflicts = a.dynamic_conflicts + 1 ∧
      a'.replan_count = a.replan_count + 1 ∧
      (b = false → a'.pos = a.pos ∧ a'.t = a.t ∧ a'.last_action = "stuck") ∧
      (∀ a2, (conflictBump a).plan = .ok (false, a2) →
        ∀ bh ah rh, a2.local_hill_climb_move rng = .ok (bh, ah, rh) →
          (b = false ↔ bh = false)) ∧
      (∀ a2, (conflictBump a).plan = .ok (true, a2) →
        (conflictCheck a2.grid (a2._plan.headD a2.pos) a2.t = .ok true →
          ∀ bh ah rh, a2.local_hill_climb_move rng = .ok (bh, ah, rh) →
            (b = false ↔ bh = false)) ∧
        (conflictCheck a2.grid (a2._plan.headD a2.pos) a2.t = .ok false →
          b = true)) := by
  suffices hsuff : ∀ res, a.step rng = res → ∃ b a' r', res = .ok (b, a', r') ∧
      a'.dynamic_conflicts = a.dynamic_conflicts + 1 ∧
      a'.replan_count = a.replan_count + 1 ∧
      (b = false → a'.pos = a.pos ∧ a'.t = a.t ∧ a'.last_action = "stuck") ∧
      (∀ a2, (conflictBump a).plan = .ok (false, a2) →
        ∀ bh ah rh, a2.local_hill_climb_move rng = .ok (bh, ah, rh) →
          (b = false ↔ bh = false)) ∧
      (∀ a2, (conflictBump a).plan = .ok (true, a2) →
        (conflictCheck a2.grid (a2._plan.headD a2.pos) a2.t = .ok true →
          ∀ bh ah rh, a2.local_hill_climb_move rng = .ok (bh, ah, rh) →
            (b = false ↔ bh = false)) ∧
        (conflictCheck a2.grid (a2._plan.headD a2.pos) a2.t = .ok false →
          b = true)) by
    exact hsuff _ rfl
  intro res h
  unfold Agent.step at h
  rw [hng] at h
  simp only [Bool.false_eq_true, if_false] at h
  rw [hplan] at h
  simp only [List.isEmpty_cons, Bool.false_eq_true, if_false] at h
  try dsimp only [] at h
  try rw [hplan] at h
  try dsimp only [] at h
  rw [hconf] at h
  try dsimp only [] at h
  obtain ⟨bp, a2, hplan2, hg2, hp2, ht2, hgoal2, hcfg2, hdc2, hrc2, helems, hempty⟩ :=
    plan_spec (conflictBump a) halgo hwf
  have ha2wf : GridWF a2.grid := by rw [hg2]; exact hwf
  have hplan2' : Agent.plan { a with
      _plan := next_pos :: restPlan
      dynamic_conflicts := a.dynamic_conflicts + 1
      replan_count := a.replan_count + 1 } = .ok (bp, a2) := by
    rw [← hplan]
    exact hplan2
  rw [hplan2'] at h
  cases bp with
  | false =>
    dsimp only [] at h
    obtain ⟨bh, ah, rh, hhill, hfr, hdc3, hrc3⟩ :=
      local_hill_climb_spec a2 ha2wf rng
    rw [hhill] at h
    cases bh with
    | false =>
      dsimp only [] at h
      have hah : ah = a2 := hfr rfl
      refine ⟨false, _, rh, h.symm, ?_, ?_, ?_, ?_, ?_⟩
      · show ah.dynamic_conflicts = a.dynamic_conflicts + 1
        rw [hdc3, hdc2]
        try rfl
      · show ah.replan_count = a.replan_count + 1
        rw [hrc3, hrc2]
        try rfl
      · intro _
        refine ⟨?_, ?_, rfl⟩
        · show ah.pos = a.pos
          rw [hah, hp2]
          try rfl
        · show ah.t = a.t
          rw [hah, ht2]
          try rfl
      · intro a2' hpl2 bh' ah' rh' hhill'
        have ha2' : a2' = a2 := by
          rw [hplan2] at hpl2
          injection hpl2 with hpl2
          injection hpl2 with _ hpl2
          exact hpl2.symm
        subst ha2'
        rw [hhill] at hhill'
        injection hhill' with hhill'
        injection hhill' with hbh _
        simp [← hbh]
      · intro a2' hpl2
        rw [hplan2] at hpl2
        injection hpl2 with hpl2
        injection hpl2 with hb _
        cases hb
    | true =>
      dsimp only [] at h
      refine ⟨true, _, rh, h.symm, ?_, ?_, ?_, ?_, ?_⟩
      · show ah.dynamic_conflicts = a.dynamic_conflicts + 1
        rw [hdc3, hdc2]
        try rfl
      · show ah.replan_count = a.replan_count + 1
        rw [hrc3, hrc2]
        try rfl
      · intro hc
        cases hc
      · intro a2' hpl2 bh' ah' rh' hhill'
        have ha2' : a2' = a2 := by
          rw [hplan2] at hpl2
          injection hpl2 with hpl2
          injection hpl2 with _ hpl2
          exact hpl2.symm
        subst ha2'
        rw [hhill] at hhill'
        injection hhill' with hhill'
        injection hhill' with hbh _
        simp [← hbh]
      · intro a2' hpl2
        rw [hplan2] at hpl2
        injection hpl2 with hpl2
        injection hpl2 with hb _
        cases hb
  | true =>
    dsimp only [] at h
    obtain ⟨c2, hc2⟩ := conflictCheck_ok a2.grid (a2._plan.headD a2.pos) a2.t ha2wf.1
    rw [hc2] at h
    cases c2 with
    | true =>
      dsimp only [] at h
      obtain ⟨bh, ah, rh, hhill, hfr, hdc3, hrc3⟩ :=
        local_hill_climb_spec a2 ha2wf rng
      rw [hhill] at h
      cases bh with
      | false =>
        dsimp only [] at h
        have hah : ah = a2 := hfr rfl
        refine ⟨false, _, rh, h.symm, ?_, ?_, ?_, ?_, ?_⟩
        · show ah.dynamic_conflicts = a.dynamic_conflicts + 1
          rw [hdc3, hdc2]
          try rfl
        · show ah.replan_count = a.replan_count + 1
          rw [hrc3, hrc2]
          try rfl
        · intro _
          refine ⟨?_, ?_, rfl⟩
          · show ah.pos = a.pos
            rw [hah, hp2]
            try rfl
          · show ah.t = a.t
            rw [hah, ht2]
            try rfl
        · intro a2' hpl2
          rw [hplan2] at hpl2
          injection hpl2 with hpl2
          injection hpl2 with hb _
          cases hb
        · intro a2' hpl2
          have ha2' : a2' = a2 := by
            rw [hplan2] at hpl2
            injection hpl2 with hpl2
            injection hpl2 with _ hpl2
            exact hpl2.symm
          subst ha2'
          constructor
          · intro _ bh' ah' rh' hhill'
            rw [hhill] at hhill'
            injection hhill' with hhill'
            injection hhill' with hbh _
            simp [← hbh]
          · intro hcc
            rw [hc2] at hcc
            injection hcc with hcc
            cases hcc
      | true =>
        dsimp only [] at h
        refine ⟨true, _, rh, h.symm, ?_, ?_, ?_, ?_, ?_⟩
        · show ah.dynamic_conflicts = a.dynamic_conflicts + 1
          rw [hdc3, hdc2]
          try rfl
        · show ah.replan_count = a.replan_count + 1
          rw [hrc3, hrc2]
          try rfl
        · intro hc
          cases hc
        · intro a2' hpl2
          rw [hplan2] at hpl2
          injection hpl2 with hpl2
          injection hpl2 with hb _
          cases hb
        · intro a2' hpl2
          have ha2' : a2' = a2 := by
            rw [hplan2] at hpl2
            injection hpl2 with hpl2
            injection hpl2 with _ hpl2
            exact hpl2.symm
          subst ha2'
          constructor
          · intro _ bh' ah' rh' hhill'
            rw [hhill] at hhill'
            injection hhill' with hhill'
            injection hhill' with hbh _
            simp [← hbh]
          · intro hcc
            rw [hc2] at hcc
    | false =>
      dsimp only [] at h
      have hnext : a2._plan.headD a2.pos = a2.pos ∨
          a2.grid.bounds.in_bounds (a2._plan.headD a2.pos) = true := by
        cases hpl : a2._plan with
        | nil => exact Or.inl rfl
        | cons q qs =>
          have hq := helems rfl q (by rw [hpl]; simp)
          rcases hq with hq | hq
          · left
            show q = a2.pos
            rw [hp2]
            exact hq
          · right
            show a2.grid.bounds.in_bounds q = true
            rw [hg2]
            exact hq
      obtain ⟨a3, hexec, hdc4, hrc4⟩ := execStep_ok a2 (a2._plan.headD a2.pos) true
        ha2wf hnext
      rw [hexec] at h
      dsimp only [] at h
      refine ⟨true, a3, rng, h.symm, ?_, ?_, ?_, ?_, ?_⟩
      · rw [hdc4, hdc2]
        try rfl
      · rw [hrc4, hrc2]
        try rfl
      · intro hc
        cases hc
      · intro a2' hpl2
        rw [hplan2] at hpl2
        injection hpl2 with hpl2
        injection hpl2 with hb _
        cases hb
      · intro a2' hpl2
        have ha2' : a2' = a2 := by
          rw [hplan2] at hpl2
          injection hpl2 with hpl2
          injection hpl2 with _ hpl2
          exact hpl2.symm
        subst ha2'
        constructor
        · intro hcc
          rw [hc2] at hcc
          injection hcc with hcc
          cases hcc
        · intro _
          rfl

/-- C2 witness: a concrete conflicted agent on `gSwap` (plan head `(1,0)`
is dynamically occupied now), where replanning fails and the fallback also
fails, so the theorem yields the stuck outcome with counters bumped. -/
theorem C2_witness :
    ∃ b a' r', aConflict.step 0 = .ok (b, a', r') ∧
      a'.dynamic_conflicts = aConflict.dynamic_conflicts + 1 ∧
      a'.replan_count = aConflict.replan_count + 1 ∧
      (b = false → a'.pos = aConflict.pos ∧ a'.t = aConflict.t ∧
        a'.last_action = "stuck") ∧
      (∀ a2, (conflictBump aConflict).plan = .ok (false, a2) →
        ∀ bh ah rh, a2.local_hill_climb_move 0 = .ok (bh, ah, rh) →
          (b = false ↔ bh = false)) ∧
      (∀ a2, (conflictBump aConflict).plan = .ok (true, a2) →
        (conflictCheck a2.grid (a2._plan.headD a2.pos) a2.t = .ok true →
          ∀ bh ah rh, a2.local_hill_climb_move 0 = .ok (bh, ah, rh) →
            (b = false ↔ bh = false)) ∧
        (conflictCheck a2.grid (a2._plan.headD a2.pos) a2.t = .ok false →
          b = true)) :=
  C2_step_conflict aConflict (1, 0) [] 0 (by decide) (by decide) (by decide)
    (by decide) (by decide)

/-- C3: for every grid and each of the three algorithms, any returned
(non-`None`) path for `(start, goal, t0)` has `start` as its first
element, contains no statically blocked cell at any index, and every pair
of consecutive positions is identical (a wait) or 4-adjacent. -/
theorem C3_path_validity (g : Grid) (start goal : Position) (t0 cap : Nat)
    (p : List Position) :
    (bfs g start goal t0 cap = .ok (some p) → pathOK g start p) ∧
    (ucs g start goal t0 cap = .ok (some p) → pathOK g start p) ∧
    (astar g start goal t0 cap = .ok (some p) → pathOK g start p) :=
  ⟨fun h => (bfs_sound g start goal t0 cap p h).1,
   fun h => (ucs_sound g start goal t0 cap p h).1,
   fun h => (astar_sound g start goal t0 cap p h).1⟩

/-- C3 witness: the theorem applied to the concrete paths the three
algorithms return on the free 2×1 grid. -/
theorem C3_witness : pathOK gFree (0, 0) [(0, 0), (1, 0)] :=
  (C3_path_validity gFree (0, 0) (1, 0) 0 200000 [(0, 0), (1, 0)]).2.2 (by decide)

/-- C4: on well-formed grids (the data model's invariant: non-empty patrol
paths, terrain of the constructed shape) each of bfs, ucs and astar
returns a result — a path or the "no path found" value — and never an
error; and in each search loop, exceeding the expansion cap
(`expanded + 1 > cap` after counting the popped state) returns exactly the
same `none` that frontier exhaustion produces. -/
theorem C4_termination_cap :
    (∀ (g : Grid) (start goal : Position) (t0 cap : Nat), GridWF g →
      (∃ r, bfs g start goal t0 cap = .ok r) ∧
      (∃ r, ucs g start goal t0 cap = .ok r) ∧
      (∃ r, astar g start goal t0 cap = .ok r)) ∧
    (∀ (g : Grid) (goal : Position) (cap fuel : Nat) (parent : PMap) (expanded : Nat),
      bfsLoop g goal cap (fuel + 1) [] parent expanded = .ok none) ∧
    (∀ (g : Grid) (goal : Position) (cap fuel : Nat) (cur : State) (rest : List State)
       (parent : PMap) (expanded : Nat), cur.pos ≠ goal → expanded + 1 > cap →
      bfsLoop g goal cap (fuel + 1) (cur :: rest) parent expanded = .ok none) ∧
    (∀ (g : Grid) (goal : Position) (cap fuel : Nat) (g_cost : GMap) (parent : PMap)
       (expanded counter : Nat),
      ucsLoop g goal cap (fuel + 1) [] g_cost parent expanded counter = .ok none) ∧
    (∀ (g : Grid) (goal : Position) (cap fuel : Nat) (e : HEntry) (rest : List HEntry)
       (g_cost : GMap) (parent : PMap) (expanded counter : Nat),
      (popMinAux e [] rest).1.s.pos ≠ goal → expanded + 1 > cap →
      ucsLoop g goal cap (fuel + 1) (e :: rest) g_cost parent expanded counter
        = .ok none) ∧
    (∀ (g : Grid) (goal : Position) (cap fuel : Nat) (g_cost : GMap) (parent : PMap)
       (expanded counter : Nat),
      astarLoop g goal cap (fuel + 1) [] g_cost parent expanded counter = .ok none) ∧
    (∀ (g : Grid) (goal : Position) (cap fuel : Nat) (e : HEntry) (rest : List HEntry)
       (g_cost : GMap) (parent : PMap) (expanded counter : Nat) (cg : Int),
      alookup g_cost (popMinAux e [] rest).1.s = some cg →
      (popMinAux e [] rest).1.s.pos ≠ goal → expanded + 1 > cap →
      astarLoop g goal cap (fuel + 1) (e :: rest) g_cost parent expanded counter
        = .ok none) :=
  ⟨fun g start goal t0 cap hwf =>
    ⟨bfs_ok g start goal t0 cap hwf, ucs_ok g start goal t0 cap hwf,
     astar_ok g start goal t0 cap hwf⟩,
   bfsLoop_exhaust, bfsLoop_cap, ucsLoop_exhaust, ucsLoop_cap,
   astarLoop_exhaust,
   fun g goal cap fuel e rest g_cost parent expanded counter cg hcg hg hcap =>
     astarLoop_cap g goal cap fuel e rest g_cost parent expanded counter cg hcg hg hcap⟩

/-- C4 witness: the theorem applied concretely — the three algorithms
return ok-results on the free grid, and each loop returns the same
`.ok none` at cap exceedance (cap 0, one non-goal state popped) as on an
empty frontier. -/
theorem C4_witness :
    (∃ r, bfs gFree (0, 0) (1, 0) 0 200000 = .ok r) ∧
    bfsLoop gFree (1, 0) 0 1 [] [] 0 = .ok none ∧
    bfsLoop gFree (1, 0) 0 1 [⟨(0, 0), 0⟩] [] 0 = .ok none ∧
    ucsLoop gFree (1, 0) 0 1 [] [] [] 0 0 = .ok none ∧
    ucsLoop gFree (1, 0) 0 1 [⟨0, 0, ⟨(0, 0), 0⟩⟩] [] [] 0 0 = .ok none ∧
    astarLoop gFree (1, 0) 0 1 [] [] [] 0 0 = .ok none ∧
    astarLoop gFree (1, 0) 0 1 [⟨1, 0, ⟨(0, 0), 0⟩⟩] [(⟨(0, 0), 0⟩, 0)] [] 0 0
      = .ok none :=
  ⟨(C4_termination_cap.1 gFree (0, 0) (1, 0) 0 200000 (by decide)).1,
   C4_termination_cap.2.1 gFree (1, 0) 0 0 [] 0,
   C4_termination_cap.2.2.1 gFree (1, 0) 0 0 ⟨(0, 0), 0⟩ [] [] 0 (by decide) (by decide),
   C4_termination_cap.2.2.2.1 gFree (1, 0) 0 0 [] [] 0 0,
   C4_termination_cap.2.2.2.2.1 gFree (1, 0) 0 0 ⟨0, 0, ⟨(0, 0), 0⟩⟩ [] [] [] 0 0
     (by decide) (by decide),
   C4_termination_cap.2.2.2.2.2.1 gFree (1, 0) 0 0 [] [] 0 0,
   C4_termination_cap.2.2.2.2.2.2 gFree (1, 0) 0 0 ⟨1, 0, ⟨(0, 0), 0⟩⟩ []
     [(⟨(0, 0), 0⟩, 0)] [] 0 0 0 (by decide) (by decide) (by decide)⟩

/-- C5: ucs's wait edge requires the cell to be unblocked at `t+1` and
additionally not dynamically occupied at the current time `t`, while
astar's wait edge requires only unblockedness at `t+1`; the two wait-edge
relations differ on `gWait` at state `((0,0), 0)`, where ucs forbids the
wait astar allows. -/
theorem C5_wait_edge_asymmetry :
    (∀ (g : Grid) (cur : State),
      (ucsWaitAllowed g cur = .ok true ↔
        g.is_blocked cur.pos ((cur.t + 1 : Nat) : Int) = .ok false ∧
        g.is_dynamic_blocked cur.pos (cur.t : Int) = .ok false) ∧
      (astarWaitAllowed g cur = .ok true ↔
        g.is_blocked cur.pos ((cur.t + 1 : Nat) : Int) = .ok false)) ∧
    ucsWaitAllowed gWait ⟨(0, 0), 0⟩ = .ok false ∧
    astarWaitAllowed gWait ⟨(0, 0), 0⟩ = .ok true := by
  refine ⟨?_, by decide, by decide⟩
  intro g cur
  constructor
  · unfold ucsWaitAllowed
    cases hb : g.is_blocked cur.pos ((cur.t + 1 : Nat) : Int) with
    | error e => simp
    | ok b =>
      cases b with
      | true => simp
      | false =>
        cases hd : g.is_dynamic_blocked cur.pos (cur.t : Int) with
        | error e => simp
        | ok d => cases d <;> simp
  · unfold astarWaitAllowed
    cases hb : g.is_blocked cur.pos ((cur.t + 1 : Nat) : Int) with
    | error e => simp
    | ok b => cases b <;> simp

/-- C6 counterexample: the claim that `is_dynamic_blocked(pos, t)` fails
for every grid whenever `t < 0` is false for a grid with no registered
dynamic obstacles — the loop body never runs and the query returns false
instead of raising. -/
theorem C6_cex : gFree.is_dynamic_blocked (0, 0) (-1) = .ok false := by decide

/-- C6 amended: for `t < 0` the query fails with the negative-time
validation error exactly when at least one dynamic obstacle is registered
(the error surfacing from the first obstacle, whose patrol path is
non-empty); with no obstacles it returns false; for `t ≥ 0` (on obstacles
with non-empty paths) it returns true iff some registered obstacle
occupies `pos` at `t`. -/
theorem C6_dynamic_time_validation (g : Grid) (p : Position) (t : Int) :
    (t < 0 → g.dynamic_obstacles = [] → g.is_dynamic_blocked p t = .ok false) ∧
    (t < 0 → ∀ o os', g.dynamic_obstacles = o :: os' → o.path ≠ [] →
      g.is_dynamic_blocked p t = .error "t must be non-negative") ∧
    (0 ≤ t → (∀ o ∈ g.dynamic_obstacles, o.path ≠ []) →
      ∃ b, g.is_dynamic_blocked p t = .ok b ∧
        (b = true ↔ ∃ o ∈ g.dynamic_obstacles, o.occupies p t = .ok true)) := by
  refine ⟨?_, ?_, ?_⟩
  · intro _ hnil
    unfold Grid.is_dynamic_blocked
    rw [hnil]
    rfl
  · intro ht o os' hcons hp
    unfold Grid.is_dynamic_blocked
    rw [hcons]
    unfold anyOccupies
    rw [occupies_neg o p t hp ht]
  · intro ht hw
    exact anyOccupies_nonneg g.dynamic_obstacles p t ht hw

/-- C6 witness: the amended theorem applied concretely — no-obstacle grid
at `t = -1` (returns false), `gWait` at `t = -1` (negative-time error) and
`gWait` at `t = 0` (occupancy disjunction). -/
theorem C6_witness :
    gFree.is_dynamic_blocked (0, 0) (-1) = .ok false ∧
    gWait.is_dynamic_blocked (0, 0) (-1) = .error "t must be non-negative" ∧
    ∃ b, gWait.is_dynamic_blocked (0, 0) 0 = .ok b ∧
      (b = true ↔ ∃ o ∈ gWait.dynamic_obstacles, o.occupies (0, 0) 0 = .ok true) :=
  ⟨(C6_dynamic_time_validation gFree (0, 0) (-1)).1 (by decide) rfl,
   (C6_dynamic_time_validation gWait (0, 0) (-1)).2.1 (by decide) obsWait [] rfl (by decide),
   (C6_dynamic_time_validation gWait (0, 0) 0).2.2 (by decide) (by decide)⟩

/-- C7 counterexample: constructing a `MovingObstacle` with an empty
patrol path does not fail fast — the dataclass constructor accepts it, and
the empty-path error only surfaces at a later position query. -/
theorem C7_cex :
    mkMovingObstacle [] true = .ok ⟨[], true⟩ ∧
    MovingObstacle.position_at ⟨[], true⟩ 0 =
      .error "MovingObstacle requires a non-empty path" := by
  exact ⟨rfl, rfl⟩

/-- C7 amended: construction with an empty patrol path is silently
accepted (the dataclass constructor never fails); the empty-path
validation error is deferred to every position / occupancy query, each of
which fails with it. -/
theorem C7_empty_path_deferred :
    (∀ (path : List Position) (cycle : Bool),
      mkMovingObstacle path cycle = .ok ⟨path, cycle⟩) ∧
    (∀ (cycle : Bool) (t : Int) (p : Position),
      MovingObstacle.position_at ⟨[], cycle⟩ t =
        .error "MovingObstacle requires a non-empty path" ∧
      MovingObstacle.occupies ⟨[], cycle⟩ p t =
        .error "MovingObstacle requires a non-empty path") := by
  exact ⟨fun _ _ => rfl, fun _ _ _ => ⟨rfl, rfl⟩⟩

/-- C10: `get_static_obstacles` returns a fresh copy of the grid's
static-obstacle set. Mutating the returned set object (adding or removing
a position) leaves `is_static_blocked` — and the grid's own set object —
unchanged, while the returned copy initially has exactly the grid's
members. -/
theorem C10_get_static_obstacles_fresh (st : Store) (g : GridRef) (p q : Position)
    (href : g.sref < st.cells.length) :
    is_static_blockedRef
        (setAdd (get_static_obstacles st g).1 (get_static_obstacles st g).2 p) g q
      = is_static_blockedRef st g q ∧
    is_static_blockedRef
        (setDiscard (get_static_obstacles st g).1 (get_static_obstacles st g).2 p) g q
      = is_static_blockedRef st g q ∧
    (setAdd (get_static_obstacles st g).1 (get_static_obstacles st g).2 p).read g.sref
      = st.read g.sref ∧
    (setDiscard (get_static_obstacles st g).1 (get_static_obstacles st g).2 p).read g.sref
      = st.read g.sref ∧
    (get_static_obstacles st g).1.read (get_static_obstacles st g).2 = st.read g.sref := by
  have hset : ∀ w : List Position,
      (Store.write (get_static_obstacles st g).1 (get_static_obstacles st g).2 w).read g.sref
        = st.read g.sref := by
    intro w
    unfold get_static_obstacles Store.alloc Store.write Store.read
    exact getD_set_append st.cells (st.read g.sref) w g.sref href
  have hcopy : (get_static_obstacles st g).1.read (get_static_obstacles st g).2
      = st.read g.sref := by
    unfold get_static_obstacles Store.alloc Store.read
    simp
  refine ⟨?_, ?_, ?_, ?_, hcopy⟩
  · unfold is_static_blockedRef setAdd
    rw [hset]
  · unfold is_static_blockedRef setDiscard
    rw [hset]
  · unfold setAdd; exact hset _
  · unfold setDiscard; exact hset _

/-- C8: `plan()` is idempotent. If a call of `plan()` on agent state `a`
returns boolean `b` and post-state `a'`, then a second call on `a'` (no
state mutation in between) returns the same boolean and the same state:
the search reads only the grid, position, time and goal, none of which
`plan()` changes, and the stored remaining-steps plan is overwritten with
the same value. -/
theorem C8_plan_idempotent (a : Agent) (b : Bool) (a' : Agent)
    (h : a.plan = .ok (b, a')) : a'.plan = .ok (b, a') := by
  have key : ∀ pl : List Position, Agent.plan { a with _plan := pl } = Agent.plan a :=
    fun pl => rfl
  have h2 := h
  unfold Agent.plan at h2
  split at h2
  · cases h2
  · split at h2
    · cases h2
    · injection h2 with h3
      injection h3 with hb ha
      subst hb; subst ha
      rw [key]; exact h
    · injection h2 with h3
      injection h3 with hb ha
      subst hb; subst ha
      rw [key]; exact h
    · injection h2 with h3
      injection h3 with hb ha
      subst hb; subst ha
      rw [key]; exact h

/-- C8 witness: on the free 2×1 grid a first `plan()` on `aStart` succeeds
with stored plan `[(1,0)]`, and by the theorem the repeated call returns
the very same result. -/
theorem C8_witness :
    aStart.plan = .ok (true, aPlanned) ∧ aPlanned.plan = .ok (true, aPlanned) :=
  ⟨by decide, C8_plan_idempotent aStart true aPlanned (by decide)⟩

/-- C9: determinism under a fixed seed. When the configuration carries a
`random_seed`, the constructor reseeds the global random source, so two
independent runs of the same scenario (same grid, start, goal,
configuration and call sequence) from arbitrary ambient random states `r1`
and `r2` produce identical results — in particular identical
(time, position) path traces and identical metrics (total cost, steps
taken, replan count, dynamic conflicts). -/
theorem C9_seeded_determinism (grid : Grid) (start goal : Position)
    (cfg : AgentConfig) (calls : List AgentCall) (s : Int) (r1 r2 : Rng)
    (h : cfg.random_seed = some s) :
    runScenario r1 grid start goal (some cfg) calls
      = runScenario r2 grid start goal (some cfg) calls ∧
    (runScenario r1 grid start goal (some cfg) calls).map traceOf
      = (runScenario r2 grid start goal (some cfg) calls).map traceOf ∧
    (runScenario r1 grid start goal (some cfg) calls).map metricsOf
      = (runScenario r2 grid start goal (some cfg) calls).map metricsOf := by
  have hinit : agentInit grid start goal (some cfg) r1
      = agentInit grid start goal (some cfg) r2 := by
    unfold agentInit
    simp [h]
  have hrun : runScenario r1 grid start goal (some cfg) calls
      = runScenario r2 grid start goal (some cfg) calls := by
    unfold runScenario
    rw [hinit]
  exact ⟨hrun, by rw [hrun], by rw [hrun]⟩

/-- C9 witness: the theorem at a concrete seeded scenario and two distinct
ambient random states. -/
theorem C9_witness :
    runScenario 0 gFree (0, 0) (1, 0) (some cfgSeeded) [.stepC]
      = runScenario 1 gFree (0, 0) (1, 0) (some cfgSeeded) [.stepC] :=
  (C9_seeded_determinism gFree (0, 0) (1, 0) cfgSeeded [.stepC] 7 0 1 rfl).1

/-- C10 witness: the theorem applied at a concrete store holding one set
object. -/
theorem C10_witness :
    is_static_blockedRef
        (setAdd (get_static_obstacles ⟨[[(0, 0)]]⟩ ⟨0⟩).1
          (get_static_obstacles ⟨[[(0, 0)]]⟩ ⟨0⟩).2 (1, 1)) ⟨0⟩ (1, 1)
      = is_static_blockedRef ⟨[[(0, 0)]]⟩ ⟨0⟩ (1, 1) :=
  (C10_get_static_obstacles_fresh ⟨[[(0, 0)]]⟩ ⟨0⟩ (1, 1) (1, 1) (by decide)).1

end PathPlan
